import Mathlib

/-!
# Verification of `scene.go` (package `source` of the ray tracer)

The file embeds `scene.go` in Lean: the scene, the nearest-hit search `Scene.Ray`,
the path colour estimator `Scene.ColorTrace`, the pixel sampler `Scene.Color` and the
disk sampler `RandomDisk`.

Conventions of the embedding.

* `float64` is the type `F64`: the rationals extended with `+Inf`, `-Inf` and `NaN`.
  Finite values are computed exactly (rounding, overflow to infinity and the sign of
  zero are not part of the model); the special values follow IEEE 754. A statement
  that rounding decides is therefore not proved about `F64`: where the rounding of the
  operations matters, as in the loop of `RandomDisk`, the operations are a parameter
  (`Float64Ops`) and the statement holds for every choice of them.
* `*rand.Rand` is the type `Rand`, the sequence of the draws still to come; every
  function that receives the generator returns the generator it leaves behind.
* The unbounded retry loop of `RandomDisk` takes a fuel argument, the number of
  iterations it may run; `none` means that the fuel ran out.
* `Vector`, `HitData`, `Hittable`, `Material` and `ErrNotHit` are declared in other
  files of the package; they are modelled here from the way `scene.go` uses them.
-/

namespace Raytrace

/-! ## float64 -/

/-- Values of Go's `float64`: a finite value, `+Inf`, `-Inf` or `NaN`. -/
inductive F64 where
  | fin (q : ℚ)
  | pinf
  | ninf
  | nan
  deriving DecidableEq

namespace F64

/-- The predicate `!math.IsInf(v, 0) && !math.IsNaN(v)`. -/
def isFinite : F64 → Bool
  | fin _ => true
  | _ => false

/-- The sum `a + b`. -/
def add : F64 → F64 → F64
  | fin a, fin b => fin (a + b)
  | nan, _ => nan
  | _, nan => nan
  | pinf, ninf => nan
  | ninf, pinf => nan
  | pinf, _ => pinf
  | _, pinf => pinf
  | ninf, _ => ninf
  | _, ninf => ninf

/-- The negation `-a`. -/
def neg : F64 → F64
  | fin a => fin (-a)
  | pinf => ninf
  | ninf => pinf
  | nan => nan

/-- The difference `a - b`. -/
def sub (a b : F64) : F64 := add a (neg b)

/-- The product of an infinity (`+Inf` when `positive`, else `-Inf`) and the finite value
`a`: `NaN` when `a` is zero, otherwise the infinity whose sign is the product of the signs. -/
def infTimes (positive : Bool) (a : ℚ) : F64 :=
  if a = 0 then nan else if decide (0 < a) = positive then pinf else ninf

/-- The product `a * b`. -/
def mul : F64 → F64 → F64
  | fin a, fin b => fin (a * b)
  | nan, _ => nan
  | _, nan => nan
  | fin a, pinf => infTimes true a
  | fin a, ninf => infTimes false a
  | pinf, fin b => infTimes true b
  | ninf, fin b => infTimes false b
  | pinf, pinf => pinf
  | pinf, ninf => ninf
  | ninf, pinf => ninf
  | ninf, ninf => pinf

/-- The quotient `a / b`; a zero divisor counts as `+0`. -/
def div : F64 → F64 → F64
  | fin a, fin b =>
    if b = 0 then (if a = 0 then nan else if 0 < a then pinf else ninf) else fin (a / b)
  | nan, _ => nan
  | _, nan => nan
  | fin _, pinf => fin 0
  | fin _, ninf => fin 0
  | pinf, fin b => if 0 ≤ b then pinf else ninf
  | ninf, fin b => if 0 ≤ b then ninf else pinf
  | pinf, pinf => nan
  | pinf, ninf => nan
  | ninf, pinf => nan
  | ninf, ninf => nan

/-- The comparison `a < b`; false as soon as one side is `NaN`. -/
def lt : F64 → F64 → Bool
  | fin a, fin b => decide (a < b)
  | nan, _ => false
  | _, nan => false
  | ninf, ninf => false
  | ninf, _ => true
  | _, ninf => false
  | pinf, _ => false
  | fin _, pinf => true

/-- The comparison `a <= b`; false as soon as one side is `NaN`. -/
def le : F64 → F64 → Bool
  | fin a, fin b => decide (a ≤ b)
  | nan, _ => false
  | _, nan => false
  | ninf, _ => true
  | _, pinf => true
  | pinf, _ => false
  | fin _, ninf => false

/-- The conversion `float64(n)` of an integer. -/
def ofInt (n : Int) : F64 := fin n

/-- The integer part of a rational, rounded toward zero. -/
def truncate (q : ℚ) : Int := if 0 ≤ q then ⌊q⌋ else ⌈q⌉

/-- The conversion `uint8(v)`. A value whose integer part lies in `0..255` converts to
that integer part; for any other value Go leaves the result to the implementation,
which is the argument `other`. -/
def toUint8 (other : F64 → Nat) : F64 → Nat
  | fin q => if 0 ≤ truncate q ∧ truncate q < 256 then (truncate q).toNat else other (fin q) % 256
  | v => other v % 256

instance : Add F64 := ⟨add⟩
instance : Sub F64 := ⟨sub⟩
instance : Mul F64 := ⟨mul⟩
instance : Div F64 := ⟨div⟩

end F64

/-! ## Vector -/

/-- Modelled from the spec: the package's `Vector`, a triple of `float64` read through
`X()`, `Y()`, `Z()`; its declaration is not in `scene.go`. -/
structure Vector where
  X : F64
  Y : F64
  Z : F64
  deriving DecidableEq

/-- Modelled from the spec: the constructor `NewVector(x, y, z)`. -/
def NewVector (x y z : F64) : Vector := ⟨x, y, z⟩

namespace Vector

/-- Modelled from the spec: `v.Add(w)`, the component-wise sum. -/
def Add (v w : Vector) : Vector := ⟨v.X + w.X, v.Y + w.Y, v.Z + w.Z⟩

/-- Modelled from the spec: `v.Sub(w)`, the component-wise difference. -/
def Sub (v w : Vector) : Vector := ⟨v.X - w.X, v.Y - w.Y, v.Z - w.Z⟩

/-- Modelled from the spec: `v.Mul(w)`, the component-wise product. -/
def Mul (v w : Vector) : Vector := ⟨v.X * w.X, v.Y * w.Y, v.Z * w.Z⟩

/-- Modelled from the spec: `v.MulS(s)`, every component times the scalar `s`. -/
def MulS (v : Vector) (s : F64) : Vector := ⟨v.X * s, v.Y * s, v.Z * s⟩

/-- Modelled from the spec: `v.DivS(s)`, every component divided by the scalar `s`. -/
def DivS (v : Vector) (s : F64) : Vector := ⟨v.X / s, v.Y / s, v.Z / s⟩

/-- The three components are finite values. -/
def isFinite (v : Vector) : Bool := v.X.isFinite && v.Y.isFinite && v.Z.isFinite

end Vector

/-! ## The random stream -/

/-- One value of `gen.Float64()`: a number of the half-open interval `[0, 1)`. -/
abbrev Draw := {q : ℚ // 0 ≤ q ∧ q < 1}

/-- The state of a `*rand.Rand`: the draws it will return from now on, in order. -/
structure Rand where
  next : Nat → Draw

namespace Rand

/-- The call `gen.Float64()`: the first draw, and the generator moved past it. -/
def Float64 (gen : Rand) : F64 × Rand :=
  (F64.fin (gen.next 0).val, ⟨fun n => gen.next (n + 1)⟩)

/-- The generator after `n` further draws have been taken from it. -/
def drop (n : Nat) (gen : Rand) : Rand := ⟨fun k => gen.next (k + n)⟩

end Rand

/-! ## Hit records, objects and materials -/

/-- Modelled from the spec: Go's `error` values as `scene.go` sees them, the package's
`ErrNotHit` and any other error; `nil` is `none` of `Option Error`. -/
inductive Error where
  | ErrNotHit
  | other (code : Nat)
  deriving DecidableEq

/-- Modelled from the spec: the `Material` interface, `Scatter(incoming, normal, gen)`
(which may draw from the generator) and `Albedo()`. -/
structure Material where
  Scatter : Vector → Vector → Rand → Vector × Rand
  Albedo : Vector

/-- The material of a record that names none (Go's zero value). `scene.go` calls the
material of a record only when its `Err` is `nil`, and a record with `Err = nil` is
taken to carry a material. -/
def Material.zero : Material := ⟨fun incoming _ gen => (incoming, gen), ⟨F64.fin 0, F64.fin 0, F64.fin 0⟩⟩

/-- Modelled from the spec: the hit record `HitData`, with the fields that `scene.go`
reads and writes. -/
structure HitData where
  T : F64
  Point : Vector
  Normal : Vector
  Matter : Material
  Err : Option Error

/-- Modelled from the spec: the `Hittable` interface, `Hit(origin, direction)`. -/
structure Hittable where
  Hit : Vector → Vector → HitData

/-- What `scene.go` uses and neither it nor the Go language fixes: the method
`Vector.Unit` (the normalization, declared with `Vector`), and the result of `uint8(v)`
for a `v` outside `0..255`, which Go leaves to the implementation. -/
structure Env where
  Unit : Vector → Vector
  uint8 : F64 → Nat

/-! ## Scene -/

/-- Scene represents the view. -/
structure Scene where
  source : Vector
  corner : Vector
  horizon : Vector
  vertical : Vector
  objects : List Hittable
  aperture : F64

/-- NewScene returns a new view, with no object. -/
def NewScene (source corner horizon vertical : Vector) (aperture : F64) : Scene :=
  ⟨source, corner, horizon, vertical, [], aperture⟩

namespace Scene

/-- Register registers an object to hit: `append(scn.objects, obj)`. -/
def Register (scn : Scene) (obj : Hittable) : Scene := { scn with objects := scn.objects ++ [obj] }

/-- Source returns the source of the scene. -/
def Source (scn : Scene) : Vector := scn.source

/-- Corner returns the corner of the scene. -/
def Corner (scn : Scene) : Vector := scn.corner

/-- Horizon returns the horizon of the scene. -/
def Horizon (scn : Scene) : Vector := scn.horizon

/-- Vertical returns the vertical of the scene. -/
def Vertical (scn : Scene) : Vector := scn.vertical

/-- Aperture returns the aperture of the scene. -/
def Aperture (scn : Scene) : F64 := scn.aperture

/-- SourceTo sets the source of the scene. -/
def SourceTo (scn : Scene) (source : Vector) : Scene := { scn with source := source }

/-- CornerTo sets the corner of the scene. -/
def CornerTo (scn : Scene) (corner : Vector) : Scene := { scn with corner := corner }

/-- HorizonTo sets the horizon of the scene. -/
def HorizonTo (scn : Scene) (horizon : Vector) : Scene := { scn with horizon := horizon }

/-- VerticalTo sets the vertical of the scene. -/
def VerticalTo (scn : Scene) (vertical : Vector) : Scene := { scn with vertical := vertical }

/-- ApertureTo sets the aperture of the scene. -/
def ApertureTo (scn : Scene) (aperture : F64) : Scene := { scn with aperture := aperture }

/-- The record `HitData{T: math.Inf(1), Err: ErrNotHit}` that `Ray` starts from; the
fields it does not name have their zero value. -/
def Ray.sentinel : HitData :=
  { T := F64.pinf
    Point := ⟨F64.fin 0, F64.fin 0, F64.fin 0⟩
    Normal := ⟨F64.fin 0, F64.fin 0, F64.fin 0⟩
    Matter := Material.zero
    Err := some Error.ErrNotHit }

/-- One iteration of the loop of `Ray`: `obj` is asked with the normalized direction
and replaces `closest` when it reports a hit that is strictly nearer. -/
def Ray.step (source towards : Vector) (closest : HitData) (obj : Hittable) : HitData :=
  let data := obj.Hit source towards
  if data.Err = none ∧ F64.lt data.T closest.T = true then data else closest

/-- Ray represents a ray: the nearest hit of the ray among the registered objects. -/
def Ray (env : Env) (scn : Scene) (source towards : Vector) : HitData :=
  let towards := env.Unit towards
  scn.objects.foldl (Ray.step source towards) Ray.sentinel

/-- What a run of `ColorTrace` produces: the colour it returns and the generator it
leaves; `rays` and `scatters` count the calls of `scn.Ray` and of `Scatter` that the
run made (they are not values of the Go program). -/
structure ColorTrace.Run where
  color : Vector
  gen : Rand
  rays : Nat
  scatters : Nat

/-- The loop `for d := 0; d < depth; d++` of `ColorTrace`, with `n` iterations left. -/
def ColorTrace.loop (env : Env) (scn : Scene) :
    Nat → Vector → Vector → Vector → Rand → Nat → Nat → ColorTrace.Run
  | 0, _, _, _, gen, rays, scatters =>
    ⟨⟨F64.fin 0, F64.fin 0, F64.fin 0⟩, gen, rays, scatters⟩
  | n + 1, color, source, towards, gen, rays, scatters =>
    let data := scn.Ray env source towards
    if data.Err = none then
      let matter := data.Matter
      let reflected := matter.Scatter towards (env.Unit data.Normal) gen
      let color := color.Mul matter.Albedo
      ColorTrace.loop env scn n color data.Point reflected.1 reflected.2 (rays + 1) (scatters + 1)
    else
      let t := ((env.Unit towards).Y + F64.fin 1) * F64.fin (1 / 2)
      let background :=
        ((NewVector (F64.fin 1) (F64.fin 1) (F64.fin 1)).MulS (F64.fin 1 - t)).Add
          ((NewVector (F64.fin (1 / 2)) (F64.fin (7 / 10)) (F64.fin 1)).MulS t)
      ⟨color.Mul background, gen, rays + 1, scatters⟩

/-- The run of `ColorTrace(source, towards, depth, gen)`. -/
def ColorTrace.run (env : Env) (scn : Scene) (source towards : Vector) (depth : Int)
    (gen : Rand) : ColorTrace.Run :=
  ColorTrace.loop env scn depth.toNat (NewVector (F64.fin 1) (F64.fin 1) (F64.fin 1))
    source towards gen 0 0

/-- ColorTrace tracks the color of a path: the colour, and the generator afterwards. -/
def ColorTrace (env : Env) (scn : Scene) (source towards : Vector) (depth : Int)
    (gen : Rand) : Vector × Rand :=
  let r := ColorTrace.run env scn source towards depth gen
  (r.color, r.gen)

end Scene

/-- RandomDisk creates a random pair that lies in a disk; `fuel` bounds the number of
iterations of its `for` loop. The test and the scaling are computed without rounding. -/
def RandomDisk (radius : F64) : Nat → Rand → Option (F64 × F64 × Rand)
  | 0, _ => none
  | fuel + 1, gen =>
    let x := gen.Float64
    let y := x.2.Float64
    if F64.le (x.1 * x.1 + y.1 * y.1) (F64.fin 1) = true then
      some (x.1 * radius, y.1 * radius, y.2)
    else
      RandomDisk radius fuel y.2

/-- The `float64` operations that `RandomDisk` applies: `*`, `+` and `<=`. Go computes
them with rounding to the nearest `float64`; `Float64Ops.exact` computes them without
rounding. -/
structure Float64Ops where
  mul : F64 → F64 → F64
  add : F64 → F64 → F64
  le : F64 → F64 → Bool

/-- The operations of `F64`, which do not round. -/
def Float64Ops.exact : Float64Ops := ⟨F64.mul, F64.add, F64.le⟩

/-- RandomDisk, with the `float64` operations it applies as a parameter: the same loop
whatever the rounding of `*`, `+` and `<=` is. `RandomDisk` is the instance at
`Float64Ops.exact`. -/
def RandomDiskOn (ops : Float64Ops) (radius : F64) : Nat → Rand → Option (F64 × F64 × Rand)
  | 0, _ => none
  | fuel + 1, gen =>
    let x := gen.Float64
    let y := x.2.Float64
    if ops.le (ops.add (ops.mul x.1 x.1) (ops.mul y.1 y.1)) (F64.fin 1) = true then
      some (ops.mul x.1 radius, ops.mul y.1 radius, y.2)
    else
      RandomDiskOn ops radius fuel y.2

/-- The test `x*x+y*y <= 1` of `RandomDisk`, as the operations `ops` compute it, on the
pair of draws of index `i` of the generator: the draws `2*i` and `2*i+1`. -/
def RandomDiskOn.accepts (ops : Float64Ops) (gen : Rand) (i : Nat) : Bool :=
  ops.le
    (ops.add
      (ops.mul (F64.fin (gen.next (2 * i)).val) (F64.fin (gen.next (2 * i)).val))
      (ops.mul (F64.fin (gen.next (2 * i + 1)).val) (F64.fin (gen.next (2 * i + 1)).val)))
    (F64.fin 1)

namespace Scene

/-- The loop `for s := 0; s < ns; s++` of `Color`, with `n` iterations left. -/
def Color.loop (env : Env) (scn : Scene) (x y depth : Int) (dx dy : F64) (start : Vector) :
    Nat → Vector → Rand → Vector × Rand
  | 0, color, gen => (color, gen)
  | n + 1, color, gen =>
    let a := gen.Float64
    let b := a.2.Float64
    let i := (F64.ofInt x + a.1) / dx
    let j := (F64.ofInt y + b.1) / dy
    let finish := (scn.corner.Add (scn.horizon.MulS i)).Add (scn.vertical.MulS j)
    let towards := finish.Sub start
    let traced := scn.ColorTrace env start towards depth b.2
    Color.loop env scn x y depth dx dy start n (color.Add traced.1) traced.2

/-- The last statements of `Color`: the summed colour is divided by `float64(ns)`,
scaled by 255.999 and every channel is converted with `uint8`. -/
def Color.pixel (env : Env) (color : Vector) (ns : Int) : Nat × Nat × Nat :=
  let pixel := (color.DivS (F64.ofInt ns)).MulS (F64.fin (255999 / 1000))
  (F64.toUint8 env.uint8 pixel.X, F64.toUint8 env.uint8 pixel.Y, F64.toUint8 env.uint8 pixel.Z)

/-- Color determines the color at a given position: `(r, g, b)` and the generator
afterwards; `fuel` is the fuel of the call of `RandomDisk`. -/
def Color (env : Env) (fuel : Nat) (scn : Scene) (x y ns depth : Int) (dx dy : F64)
    (gen : Rand) : Option ((Nat × Nat × Nat) × Rand) :=
  match RandomDisk scn.aperture fuel gen with
  | none => none
  | some (i, j, gen) =>
    let h := (env.Unit scn.horizon).MulS i
    let v := (env.Unit scn.vertical).MulS j
    let start := (scn.source.Add h).Add v
    let sum := Color.loop env scn x y depth dx dy start ns.toNat
      ⟨F64.fin 0, F64.fin 0, F64.fin 0⟩ gen
    some (Color.pixel env sum.1 ns, sum.2)

end Scene

/-! ## The path of a trace, bounce by bounce -/

namespace Scene

/-- The ray that `ColorTrace` is following, and the generator at that moment. -/
structure ColorTrace.Path where
  source : Vector
  towards : Vector
  gen : Rand

/-- One bounce of a path whose ray hits: `Scatter` of the material of the hit is called
with the current direction and the normalized normal of the hit; the next origin is
the `Point` of the hit and the next direction is the result of `Scatter`. -/
def ColorTrace.bounce (env : Env) (scn : Scene) (p : ColorTrace.Path) : ColorTrace.Path :=
  let data := scn.Ray env p.source p.towards
  let reflected := data.Matter.Scatter p.towards (env.Unit data.Normal) p.gen
  ⟨data.Point, reflected.1, reflected.2⟩

/-- The path after `k` bounces. -/
def ColorTrace.path (env : Env) (scn : Scene) (p : ColorTrace.Path) (k : Nat) : ColorTrace.Path :=
  (ColorTrace.bounce env scn)^[k] p

/-- The record that `scn.Ray` returns for the path after `k` bounces. -/
def ColorTrace.hit (env : Env) (scn : Scene) (p : ColorTrace.Path) (k : Nat) : HitData :=
  scn.Ray env (ColorTrace.path env scn p k).source (ColorTrace.path env scn p k).towards

/-- The albedos of the materials hit by the first `k` bounces, in order. -/
def ColorTrace.albedos (env : Env) (scn : Scene) (p : ColorTrace.Path) (k : Nat) : List Vector :=
  (List.range k).map (fun i => (ColorTrace.hit env scn p i).Matter.Albedo)

/-- The sky gradient: white and `(0.5, 0.7, 1)` blended by the factor `t`. -/
def ColorTrace.blend (t : F64) : Vector :=
  ((NewVector (F64.fin 1) (F64.fin 1) (F64.fin 1)).MulS (F64.fin 1 - t)).Add
    ((NewVector (F64.fin (1 / 2)) (F64.fin (7 / 10)) (F64.fin 1)).MulS t)

/-- The background colour of a ray of direction `towards` that escapes: the sky
gradient at `t = (unit(towards).y + 1) * 0.5`. -/
def ColorTrace.background (env : Env) (towards : Vector) : Vector :=
  ColorTrace.blend (((env.Unit towards).Y + F64.fin 1) * F64.fin (1 / 2))

end Scene

/-! ## The reference pipeline of the pixel sampler -/

namespace Reference

/-- The origin of the rays of a pixel for the lens offset `(i, j)`:
`source + unit(horizon)*i + unit(vertical)*j`. -/
def start (env : Env) (scn : Scene) (i j : F64) : Vector :=
  (scn.source.Add ((env.Unit scn.horizon).MulS i)).Add ((env.Unit scn.vertical).MulS j)

/-- One sample: `a` then `b` are drawn from the generator,
`end = corner + horizon*((x+a)/dx) + vertical*((y+b)/dy)`, and the colour is
`ColorTrace(start, end - start, depth, gen)`. -/
def sample (env : Env) (scn : Scene) (x y depth : Int) (dx dy : F64) (start : Vector)
    (gen : Rand) : Vector × Rand :=
  let a := F64.fin (gen.next 0).val
  let b := F64.fin (gen.next 1).val
  let u := (F64.fin x + a) / dx
  let v := (F64.fin y + b) / dy
  let target := (scn.corner.Add (scn.horizon.MulS u)).Add (scn.vertical.MulS v)
  scn.ColorTrace env start (target.Sub start) depth (gen.drop 2)

/-- The direction of the ray of a sample whose two draws are `a` and `b`:
`corner + horizon*((x+a)/dx) + vertical*((y+b)/dy) - start`. -/
def direction (scn : Scene) (x y : Int) (dx dy : F64) (start : Vector) (a b : F64) : Vector :=
  ((scn.corner.Add (scn.horizon.MulS ((F64.fin x + a) / dx))).Add
    (scn.vertical.MulS ((F64.fin y + b) / dy))).Sub start

/-- The colours of `n` samples taken one after the other, and the generator after the
last one. -/
def samples (env : Env) (scn : Scene) (x y depth : Int) (dx dy : F64) (start : Vector) :
    Nat → Rand → List Vector × Rand
  | 0, gen => ([], gen)
  | n + 1, gen =>
    let first := sample env scn x y depth dx dy start gen
    let rest := samples env scn x y depth dx dy start n first.2
    (first.1 :: rest.1, rest.2)

/-- The sum of a list of colours, from `(0, 0, 0)`. -/
def total (colors : List Vector) : Vector :=
  colors.foldl Vector.Add ⟨F64.fin 0, F64.fin 0, F64.fin 0⟩

/-- A channel scaled by 255.999 and truncated toward zero to an 8-bit unsigned value. -/
def channel (env : Env) (c : F64) : Nat := F64.toUint8 env.uint8 (c * F64.fin (255999 / 1000))

/-- The reference pipeline of `Color` for `ns` samples: one lens offset from
`RandomDisk`, the start point, the `ns` samples in order, and every channel of
`sum / ns` scaled and truncated. -/
def Color (env : Env) (fuel : Nat) (scn : Scene) (x y : Int) (ns : Nat) (depth : Int)
    (dx dy : F64) (gen : Rand) : Option ((Nat × Nat × Nat) × Rand) :=
  (RandomDisk scn.aperture fuel gen).map fun lens =>
    let taken := samples env scn x y depth dx dy (start env scn lens.1 lens.2.1) ns lens.2.2
    let mean := (total taken.1).DivS (F64.fin ns)
    ((channel env mean.X, channel env mean.Y, channel env mean.Z), taken.2)

end Reference

/-! ## Fixtures: concrete generators, materials, objects and scenes -/

namespace Fixture

/-- The absolute value of a rational, through a comparison. -/
def magnitude (q : ℚ) : ℚ := if 0 ≤ q then q else -q

/-- A normalization that can be computed: a finite vector divided by the sum of the
absolute values of its components; `NaN` for the zero vector and for a vector that is
not finite, as `v / |v|` gives. On a vector along one axis it is `v / |v|` itself. -/
def taxicabUnit : Vector → Vector
  | ⟨F64.fin x, F64.fin y, F64.fin z⟩ =>
    if magnitude x + magnitude y + magnitude z = 0 then ⟨F64.nan, F64.nan, F64.nan⟩
    else ⟨F64.fin (x / (magnitude x + magnitude y + magnitude z)),
          F64.fin (y / (magnitude x + magnitude y + magnitude z)),
          F64.fin (z / (magnitude x + magnitude y + magnitude z))⟩
  | _ => ⟨F64.nan, F64.nan, F64.nan⟩

/-- The normalization is `taxicabUnit` and an out-of-range `uint8` is 0. -/
def env : Env := ⟨taxicabUnit, fun _ => 0⟩

/-- The vector whose three components are the finite value `q`. -/
def vec (q : ℚ) : Vector := ⟨F64.fin q, F64.fin q, F64.fin q⟩

/-- The generator all of whose draws are `0`. -/
def zeros : Rand := ⟨fun _ => ⟨0, by norm_num⟩⟩

/-- A material that reflects the incoming direction unchanged, with albedo `1/2`. -/
def mirror : Material := ⟨fun incoming _ gen => (incoming, gen), vec (1 / 2)⟩

/-- An object that every ray hits at distance `t`. -/
def wall (t : ℚ) : Hittable :=
  ⟨fun _ _ => { T := F64.fin t, Point := vec t, Normal := vec 1, Matter := mirror, Err := none }⟩

/-- An object that no ray hits. -/
def ghost : Hittable :=
  ⟨fun _ _ => { T := F64.fin 0, Point := vec 0, Normal := vec 0, Matter := Material.zero,
                Err := some Error.ErrNotHit }⟩

/-- The corner of the image plane of the fixtures, one unit in front of the camera. -/
def corner : Vector := ⟨F64.fin 0, F64.fin 0, F64.fin (-1)⟩

/-- The horizontal extent of the image plane of the fixtures, along the first axis. -/
def horizon : Vector := ⟨F64.fin 1, F64.fin 0, F64.fin 0⟩

/-- The vertical extent of the image plane of the fixtures, along the second axis. -/
def vertical : Vector := ⟨F64.fin 0, F64.fin 1, F64.fin 0⟩

/-- A scene with camera at the origin, looking along the third axis, and the objects
`objects`. -/
def scene (objects : List Hittable) (aperture : F64) : Scene :=
  ⟨vec 0, corner, horizon, vertical, objects, aperture⟩

/-- A far wall, an object that is never hit and a near wall, registered in this order. -/
def nearFar : Scene := scene [wall 2, ghost, wall 1] (F64.fin 0)

/-- A scene closed by one wall: every ray hits. -/
def room : Scene := scene [wall 1] (F64.fin 0)

/-- A scene fresh from `NewScene`, with no object. -/
def empty : Scene := NewScene (vec 0) corner horizon vertical (F64.fin 0)

/-- The direction that points straight down. -/
def down : Vector := ⟨F64.fin 0, F64.fin (-1), F64.fin 0⟩

/-- An object that is hit, at distance 1 and at the point `(1, 1, 1)`, by the rays that
start at the origin, and by no other ray. -/
def patch : Hittable :=
  ⟨fun source _ =>
    if source = vec 0 then
      { T := F64.fin 1, Point := vec 1, Normal := vec 1, Matter := mirror, Err := none }
    else
      { T := F64.fin 0, Point := vec 0, Normal := vec 0, Matter := Material.zero,
        Err := some Error.ErrNotHit }⟩

/-- A scene whose only object is `patch`: a ray from the origin bounces once and then
escapes. -/
def oneBounce : Scene := scene [patch] (F64.fin 0)

/-- An object that every ray hits at distance `t` and at the point `(p, p, p)`. -/
def plate (t p : ℚ) : Hittable :=
  ⟨fun _ _ => { T := F64.fin t, Point := vec p, Normal := vec 1, Matter := mirror, Err := none }⟩

/-- A plate at distance 2, then two plates at the same distance 1 with an object that is
never hit between them. -/
def tie : Scene := scene [plate 2 0, plate 1 1, ghost, plate 1 2] (F64.fin 0)

/-- An object that reports a hit at distance `+Inf`, at the point `(p, p, p)`. -/
def skyline (p : ℚ) : Hittable :=
  ⟨fun _ _ => { T := F64.pinf, Point := vec p, Normal := vec 1, Matter := mirror, Err := none }⟩

/-- Two objects whose hits are both at distance `+Inf`. -/
def skylines : Scene := scene [skyline 1, skyline 2] (F64.fin 0)

/-- The direction `(1, -1, 1)`. -/
def diagonal : Vector := ⟨F64.fin 1, F64.fin (-1), F64.fin 1⟩

/-- Modelled from the spec: `Vector.Unit`, the normalization `v / |v|`, with the values
that `float64` gives at the two vectors `(1, -1, 1)` and `(3, -3, 3)`:
`1 / sqrt(3) = 0.5773502691896258 = 5200308914369309 / 2^53` and
`3 / sqrt(27) = 0.5773502691896257 = 1300077228592327 / 2^51`; `taxicabUnit` elsewhere. -/
def roundedUnit (v : Vector) : Vector :=
  if v = ⟨F64.fin 1, F64.fin (-1), F64.fin 1⟩ then
    ⟨F64.fin (5200308914369309 / 9007199254740992),
     F64.fin (-(5200308914369309 / 9007199254740992)),
     F64.fin (5200308914369309 / 9007199254740992)⟩
  else if v = ⟨F64.fin 3, F64.fin (-3), F64.fin 3⟩ then
    ⟨F64.fin (1300077228592327 / 2251799813685248),
     F64.fin (-(1300077228592327 / 2251799813685248)),
     F64.fin (1300077228592327 / 2251799813685248)⟩
  else taxicabUnit v

/-- The environment whose normalization is `roundedUnit`. -/
def rounded : Env := ⟨roundedUnit, fun _ => 0⟩

/-- An object that every ray hits, at the distance given by the first component of the
direction it receives. -/
def compass : Hittable :=
  ⟨fun _ direction =>
    { T := direction.X, Point := vec 0, Normal := vec 1, Matter := mirror, Err := none }⟩

/-- A scene whose only object is `compass`. -/
def compassScene : Scene := scene [compass] (F64.fin 0)

/-- A generator whose first pair of draws, `(7/8, 7/8)`, lies outside the unit disk
and whose later draws are all `1/2`. -/
def retry : Rand :=
  ⟨fun n => if n < 2 then ⟨7 / 8, by norm_num⟩ else ⟨1 / 2, by norm_num⟩⟩

end Fixture

/-! ## Facts about `float64` -/

namespace F64

theorem eq_fin_of_isFinite {a : F64} (h : a.isFinite = true) : ∃ q, a = fin q := by
  cases a with
  | fin q => exact ⟨q, rfl⟩
  | pinf => cases h
  | ninf => cases h
  | nan => cases h

theorem lt_fin_pinf (q : ℚ) : lt (fin q) pinf = true := rfl

theorem one_mul (a : F64) : fin 1 * a = a := by
  show mul (fin 1) a = a
  cases a <;> simp [mul, infTimes]

theorem mul_fin (a b : ℚ) : fin a * fin b = fin (a * b) := rfl

theorem add_fin (a b : ℚ) : fin a + fin b = fin (a + b) := rfl

theorem div_fin (a b : ℚ) (hb : b ≠ 0) : fin a / fin b = fin (a / b) := by
  show div (fin a) (fin b) = fin (a / b)
  simp [div, hb]

theorem sub_fin (a b : ℚ) : fin a - fin b = fin (a - b) := by
  show add (fin a) (neg (fin b)) = fin (a - b)
  simp [add, neg, sub_eq_add_neg]

theorem le_fin_fin (a b : ℚ) : le (fin a) (fin b) = true ↔ a ≤ b := by
  simp [le]

theorem lt_fin_fin (a b : ℚ) : lt (fin a) (fin b) = true ↔ a < b := by
  simp [lt]

end F64

/-! ## Facts about the fixtures -/

namespace Fixture

/-- The direction `down` has length 1: its normalization is itself. -/
theorem unit_down : env.Unit down = down := by
  simp only [env, down, taxicabUnit, magnitude]
  norm_num

/-- The normalized horizon and vertical of the camera of the fixtures are finite. -/
theorem unit_camera_finite :
    (env.Unit horizon).isFinite = true ∧ (env.Unit vertical).isFinite = true := by
  simp only [env, horizon, vertical, taxicabUnit, magnitude]
  norm_num [Vector.isFinite, F64.isFinite]

end Fixture

/-! ## `Scene.Ray` -/

namespace Scene

/-- The loop of `Ray`, started from a hit at a finite distance, ends on a hit at a
finite distance that is no further than the start and than every hit of the list. -/
theorem Ray.foldl_of_hit (source towards : Vector) (l : List Hittable)
    (hfin : ∀ obj ∈ l, (obj.Hit source towards).Err = none →
      (obj.Hit source towards).T.isFinite = true)
    (c : HitData) (hc : c.T.isFinite = true)
    (hsrc : c.Err = none) :
    (l.foldl (Ray.step source towards) c).Err = none ∧
    (l.foldl (Ray.step source towards) c).T.isFinite = true ∧
    F64.le (l.foldl (Ray.step source towards) c).T c.T = true ∧
    (∀ obj ∈ l, (obj.Hit source towards).Err = none →
      F64.le (l.foldl (Ray.step source towards) c).T (obj.Hit source towards).T = true) ∧
    (l.foldl (Ray.step source towards) c = c ∨
      ∃ obj ∈ l, l.foldl (Ray.step source towards) c = obj.Hit source towards) := by
  induction l generalizing c with
  | nil =>
    obtain ⟨q, hq⟩ := F64.eq_fin_of_isFinite hc
    simp [hsrc, hq, F64.le, F64.isFinite]
  | cons obj l ih =>
    have hfin' : ∀ o ∈ l, (o.Hit source towards).Err = none →
        (o.Hit source towards).T.isFinite = true :=
      fun o ho => hfin o (List.mem_cons_of_mem _ ho)
    obtain ⟨qc, hqc⟩ := F64.eq_fin_of_isFinite hc
    simp only [List.foldl_cons]
    by_cases hrep : (obj.Hit source towards).Err = none ∧
        F64.lt (obj.Hit source towards).T c.T = true
    · have hstep : Ray.step source towards c obj = obj.Hit source towards := by
        simp only [Ray.step]; rw [if_pos hrep]
      rw [hstep]
      have hd := hfin obj (List.mem_cons_self _ _) hrep.1
      obtain ⟨qd, hqd⟩ := F64.eq_fin_of_isFinite hd
      obtain ⟨h1, h2, h3, h4, h5⟩ := ih hfin' (obj.Hit source towards) hd hrep.1
      obtain ⟨qr, hqr⟩ := F64.eq_fin_of_isFinite h2
      have hlt : qd < qc := by
        have := hrep.2; rw [hqd, hqc] at this; exact (F64.lt_fin_fin _ _).1 this
      have hle : qr ≤ qd := by
        have := h3; rw [hqr, hqd] at this; exact (F64.le_fin_fin _ _).1 this
      refine ⟨h1, h2, ?_, ?_, ?_⟩
      · rw [hqr, hqc]; exact (F64.le_fin_fin _ _).2 (le_of_lt (lt_of_le_of_lt hle hlt))
      · intro o ho hs
        rcases List.mem_cons.1 ho with rfl | ho
        · exact h3
        · exact h4 o ho hs
      · rcases h5 with h5 | ⟨o, ho, h5⟩
        · exact Or.inr ⟨obj, List.mem_cons_self _ _, h5⟩
        · exact Or.inr ⟨o, List.mem_cons_of_mem _ ho, h5⟩
    · have hstep : Ray.step source towards c obj = c := by
        simp only [Ray.step]; rw [if_neg hrep]
      rw [hstep]
      obtain ⟨h1, h2, h3, h4, h5⟩ := ih hfin' c hc hsrc
      obtain ⟨qr, hqr⟩ := F64.eq_fin_of_isFinite h2
      have hle : qr ≤ qc := by
        have := h3; rw [hqr, hqc] at this; exact (F64.le_fin_fin _ _).1 this
      refine ⟨h1, h2, h3, ?_, ?_⟩
      · intro o ho hs
        rcases List.mem_cons.1 ho with rfl | ho
        · obtain ⟨qd, hqd⟩ := F64.eq_fin_of_isFinite (hfin o (List.mem_cons_self _ _) hs)
          have hnlt : ¬ qd < qc := by
            intro hlt
            exact hrep ⟨hs, by rw [hqd, hqc]; exact (F64.lt_fin_fin _ _).2 hlt⟩
          rw [hqr, hqd]
          exact (F64.le_fin_fin _ _).2 (le_trans hle (not_lt.1 hnlt))
        · exact h4 o ho hs
      · rcases h5 with h5 | ⟨o, ho, h5⟩
        · exact Or.inl h5
        · exact Or.inr ⟨o, List.mem_cons_of_mem _ ho, h5⟩

/-- The loop of `Ray`, started from a record at distance `+Inf`: when no object of the
list hits, the record is returned as it is; otherwise the loop ends on the record of an
object that hits, no further than every hit of the list. -/
theorem Ray.foldl_of_inf (source towards : Vector) (l : List Hittable)
    (hfin : ∀ obj ∈ l, (obj.Hit source towards).Err = none →
      (obj.Hit source towards).T.isFinite = true)
    (c : HitData) (hc : c.T = F64.pinf) :
    ((∀ obj ∈ l, (obj.Hit source towards).Err ≠ none) →
      l.foldl (Ray.step source towards) c = c) ∧
    ((∃ obj ∈ l, (obj.Hit source towards).Err = none) →
      (l.foldl (Ray.step source towards) c).Err = none ∧
      (∀ obj ∈ l, (obj.Hit source towards).Err = none →
        F64.le (l.foldl (Ray.step source towards) c).T (obj.Hit source towards).T = true) ∧
      ∃ obj ∈ l, l.foldl (Ray.step source towards) c = obj.Hit source towards) := by
  induction l generalizing c with
  | nil => simp
  | cons obj l ih =>
    have hfin' : ∀ o ∈ l, (o.Hit source towards).Err = none →
        (o.Hit source towards).T.isFinite = true :=
      fun o ho => hfin o (List.mem_cons_of_mem _ ho)
    simp only [List.foldl_cons]
    by_cases hs : (obj.Hit source towards).Err = none
    · have hd := hfin obj (List.mem_cons_self _ _) hs
      obtain ⟨qd, hqd⟩ := F64.eq_fin_of_isFinite hd
      have hstep : Ray.step source towards c obj = obj.Hit source towards := by
        simp only [Ray.step]
        rw [if_pos ⟨hs, by rw [hqd, hc]; rfl⟩]
      rw [hstep]
      obtain ⟨h1, _, h3, h4, h5⟩ :=
        Ray.foldl_of_hit source towards l hfin' (obj.Hit source towards) hd hs
      refine ⟨fun hno => absurd hs (hno obj (List.mem_cons_self _ _)), fun _ => ⟨h1, ?_, ?_⟩⟩
      · intro o ho hso
        rcases List.mem_cons.1 ho with rfl | ho
        · exact h3
        · exact h4 o ho hso
      · rcases h5 with h5 | ⟨o, ho, h5⟩
        · exact ⟨obj, List.mem_cons_self _ _, h5⟩
        · exact ⟨o, List.mem_cons_of_mem _ ho, h5⟩
    · have hstep : Ray.step source towards c obj = c := by
        simp only [Ray.step]; rw [if_neg (fun h => hs h.1)]
      rw [hstep]
      obtain ⟨ih1, ih2⟩ := ih hfin' c hc
      refine ⟨fun hno => ih1 (fun o ho => hno o (List.mem_cons_of_mem _ ho)), ?_⟩
      rintro ⟨o, ho, hso⟩
      rcases List.mem_cons.1 ho with rfl | ho
      · exact absurd hso hs
      · obtain ⟨h1, h2, o', ho', h3⟩ := ih2 ⟨o, ho, hso⟩
        refine ⟨h1, ?_, ⟨o', List.mem_cons_of_mem _ ho', h3⟩⟩
        intro o2 ho2 hs2
        rcases List.mem_cons.1 ho2 with rfl | ho2
        · exact absurd hs2 hs
        · exact h2 o2 ho2 hs2

/-- C1: when every record with `Err = nil` that the registered objects return for
`(source, unit(towards))` has a finite `T`: if at least one object hits, `Ray` returns
a record with `Err = nil`, which is the record of a registered object and whose `T` is
at most the `T` of every record with `Err = nil`; if no object hits, `Ray` returns a
record with `Err = ErrNotHit`. -/
theorem Ray_nearest (env : Env) (scn : Scene) (source towards : Vector)
    (hfin : ∀ obj ∈ scn.objects, (obj.Hit source (env.Unit towards)).Err = none →
      (obj.Hit source (env.Unit towards)).T.isFinite = true) :
    ((∃ obj ∈ scn.objects, (obj.Hit source (env.Unit towards)).Err = none) →
      (scn.Ray env source towards).Err = none ∧
      (∀ obj ∈ scn.objects, (obj.Hit source (env.Unit towards)).Err = none →
        F64.le (scn.Ray env source towards).T (obj.Hit source (env.Unit towards)).T = true) ∧
      ∃ obj ∈ scn.objects, scn.Ray env source towards = obj.Hit source (env.Unit towards)) ∧
    ((∀ obj ∈ scn.objects, (obj.Hit source (env.Unit towards)).Err ≠ none) →
      (scn.Ray env source towards).Err = some Error.ErrNotHit) := by
  obtain ⟨h1, h2⟩ :=
    Ray.foldl_of_inf source (env.Unit towards) scn.objects hfin Ray.sentinel rfl
  refine ⟨fun hex => h2 hex, fun hno => ?_⟩
  have := h1 hno
  simp only [Ray]
  rw [this]
  rfl

/-- C1 at the scene `nearFar`: the far wall (T = 2), an object that misses and the near
wall (T = 1); `Ray` reports a hit no further than the far wall. -/
theorem Ray_nearest_witness :
    (∀ obj ∈ Fixture.nearFar.objects,
      (obj.Hit (Fixture.vec 0) (Fixture.env.Unit (Fixture.vec 1))).Err = none →
      (obj.Hit (Fixture.vec 0) (Fixture.env.Unit (Fixture.vec 1))).T.isFinite = true) ∧
    (Fixture.nearFar.Ray Fixture.env (Fixture.vec 0) (Fixture.vec 1)).Err = none ∧
    F64.le (Fixture.nearFar.Ray Fixture.env (Fixture.vec 0) (Fixture.vec 1)).T (F64.fin 2)
      = true := by
  have hfin : ∀ obj ∈ Fixture.nearFar.objects,
      (obj.Hit (Fixture.vec 0) (Fixture.env.Unit (Fixture.vec 1))).Err = none →
      (obj.Hit (Fixture.vec 0) (Fixture.env.Unit (Fixture.vec 1))).T.isFinite = true := by
    simp [Fixture.nearFar, Fixture.scene, Fixture.wall, Fixture.ghost, F64.isFinite]
  have hmem : Fixture.wall 2 ∈ Fixture.nearFar.objects := by
    simp [Fixture.nearFar, Fixture.scene]
  have h := (Ray_nearest Fixture.env Fixture.nearFar (Fixture.vec 0) (Fixture.vec 1) hfin).1
    ⟨Fixture.wall 2, hmem, rfl⟩
  exact ⟨hfin, h.1, h.2.1 (Fixture.wall 2) hmem rfl⟩

/-! ## `Scene.ColorTrace` -/

theorem ColorTrace.hit_bounce (env : Env) (scn : Scene) (p : ColorTrace.Path) (k : Nat) :
    ColorTrace.hit env scn (ColorTrace.bounce env scn p) k = ColorTrace.hit env scn p (k + 1) :=
  rfl

theorem ColorTrace.path_bounce (env : Env) (scn : Scene) (p : ColorTrace.Path) (k : Nat) :
    ColorTrace.path env scn (ColorTrace.bounce env scn p) k = ColorTrace.path env scn p (k + 1) :=
  rfl

theorem ColorTrace.albedos_succ (env : Env) (scn : Scene) (p : ColorTrace.Path) (k : Nat) :
    ColorTrace.albedos env scn p (k + 1) =
      (ColorTrace.hit env scn p 0).Matter.Albedo ::
        ColorTrace.albedos env scn (ColorTrace.bounce env scn p) k := by
  simp only [ColorTrace.albedos, List.range_succ_eq_map, List.map_cons, List.map_map]
  rfl

/-- One iteration of the loop of `ColorTrace` on a ray that hits. -/
theorem ColorTrace.loop_hit (env : Env) (scn : Scene) (n : Nat) (color : Vector)
    (p : ColorTrace.Path) (rays scatters : Nat)
    (h : (ColorTrace.hit env scn p 0).Err = none) :
    ColorTrace.loop env scn (n + 1) color p.source p.towards p.gen rays scatters =
      ColorTrace.loop env scn n (color.Mul (ColorTrace.hit env scn p 0).Matter.Albedo)
        (ColorTrace.bounce env scn p).source (ColorTrace.bounce env scn p).towards
        (ColorTrace.bounce env scn p).gen (rays + 1) (scatters + 1) := by
  have h' : (scn.Ray env p.source p.towards).Err = none := h
  simp only [ColorTrace.loop]
  rw [if_pos h']
  rfl

/-- One iteration of the loop of `ColorTrace` on a ray that escapes. -/
theorem ColorTrace.loop_miss (env : Env) (scn : Scene) (n : Nat) (color : Vector)
    (p : ColorTrace.Path) (rays scatters : Nat)
    (h : (ColorTrace.hit env scn p 0).Err ≠ none) :
    ColorTrace.loop env scn (n + 1) color p.source p.towards p.gen rays scatters =
      ⟨color.Mul (ColorTrace.background env p.towards), p.gen, rays + 1, scatters⟩ := by
  have h' : ¬ (scn.Ray env p.source p.towards).Err = none := h
  simp only [ColorTrace.loop]
  rw [if_neg h']
  rfl

/-- The loop of `ColorTrace` when each of its `n` iterations hits. -/
theorem ColorTrace.loop_exhaust (env : Env) (scn : Scene) (n : Nat) (color : Vector)
    (p : ColorTrace.Path) (rays scatters : Nat)
    (h : ∀ k < n, (ColorTrace.hit env scn p k).Err = none) :
    ColorTrace.loop env scn n color p.source p.towards p.gen rays scatters =
      ⟨⟨F64.fin 0, F64.fin 0, F64.fin 0⟩, (ColorTrace.path env scn p n).gen,
        rays + n, scatters + n⟩ := by
  induction n generalizing color p rays scatters with
  | zero => rfl
  | succ n ih =>
    rw [ColorTrace.loop_hit env scn n color p rays scatters (h 0 (Nat.succ_pos n))]
    rw [ih _ _ _ _ (fun k hk => by
      rw [ColorTrace.hit_bounce]; exact h (k + 1) (Nat.succ_lt_succ hk))]
    rw [ColorTrace.path_bounce, Nat.add_right_comm rays 1 n, Nat.add_right_comm scatters 1 n]
    rfl

/-- The loop of `ColorTrace` when its first `k` iterations hit and the next one, which
the budget `n` still allows, escapes. -/
theorem ColorTrace.loop_escape (env : Env) (scn : Scene) (k n : Nat) (hkn : k < n)
    (color : Vector) (p : ColorTrace.Path) (rays scatters : Nat)
    (hhit : ∀ i < k, (ColorTrace.hit env scn p i).Err = none)
    (hmiss : (ColorTrace.hit env scn p k).Err ≠ none) :
    ColorTrace.loop env scn n color p.source p.towards p.gen rays scatters =
      ⟨((ColorTrace.albedos env scn p k).foldl Vector.Mul color).Mul
          (ColorTrace.background env (ColorTrace.path env scn p k).towards),
        (ColorTrace.path env scn p k).gen, rays + k + 1, scatters + k⟩ := by
  induction k generalizing n color p rays scatters with
  | zero =>
    obtain ⟨m, rfl⟩ : ∃ m, n = m + 1 := ⟨n - 1, by omega⟩
    rw [ColorTrace.loop_miss env scn m color p rays scatters hmiss]
    rfl
  | succ k ih =>
    obtain ⟨m, rfl⟩ : ∃ m, n = m + 1 := ⟨n - 1, by omega⟩
    rw [ColorTrace.loop_hit env scn m color p rays scatters (hhit 0 (Nat.succ_pos k))]
    rw [ih m (by omega) _ _ _ _ (fun i hi => by
      rw [ColorTrace.hit_bounce]; exact hhit (i + 1) (Nat.succ_lt_succ hi))
      (by rw [ColorTrace.hit_bounce]; exact hmiss)]
    rw [ColorTrace.path_bounce, ColorTrace.albedos_succ, List.foldl_cons,
      Nat.add_right_comm rays 1 k, Nat.add_right_comm scatters 1 k]
    rfl

/-- C2: when every query of `scn.Ray` made during the trace reports a hit, `ColorTrace`
with a budget `depth >= 0` returns exactly `(0, 0, 0)`, after exactly `depth` calls of
`scn.Ray` and exactly `depth` calls of `Scatter`, whatever the albedos are; the
generator it leaves is the one after `depth` bounces. -/
theorem ColorTrace_exhausted_black (env : Env) (scn : Scene) (source towards : Vector)
    (depth : Int) (gen : Rand) (hdepth : 0 ≤ depth)
    (hhit : ∀ k : Nat, (k : Int) < depth →
      (ColorTrace.hit env scn ⟨source, towards, gen⟩ k).Err = none) :
    (scn.ColorTrace env source towards depth gen).1 = ⟨F64.fin 0, F64.fin 0, F64.fin 0⟩ ∧
    ((ColorTrace.run env scn source towards depth gen).rays : Int) = depth ∧
    ((ColorTrace.run env scn source towards depth gen).scatters : Int) = depth ∧
    (scn.ColorTrace env source towards depth gen).2 =
      (ColorTrace.path env scn ⟨source, towards, gen⟩ depth.toNat).gen := by
  have h := ColorTrace.loop_exhaust env scn depth.toNat
    (NewVector (F64.fin 1) (F64.fin 1) (F64.fin 1)) ⟨source, towards, gen⟩ 0 0
    (fun k hk => hhit k (by omega))
  have hrun : ColorTrace.run env scn source towards depth gen =
      ⟨⟨F64.fin 0, F64.fin 0, F64.fin 0⟩,
        (ColorTrace.path env scn ⟨source, towards, gen⟩ depth.toNat).gen,
        0 + depth.toNat, 0 + depth.toNat⟩ := h
  simp [ColorTrace, hrun, Int.toNat_of_nonneg hdepth]

/-- C2 in the scene `room`, where every ray hits the wall, with a budget of 3. -/
theorem ColorTrace_exhausted_black_witness :
    (Fixture.room.ColorTrace Fixture.env (Fixture.vec 0) (Fixture.vec 1) 3 Fixture.zeros).1
      = ⟨F64.fin 0, F64.fin 0, F64.fin 0⟩ ∧
    ((ColorTrace.run Fixture.env Fixture.room (Fixture.vec 0) (Fixture.vec 1) 3
      Fixture.zeros).rays : Int) = 3 :=
  have h := ColorTrace_exhausted_black Fixture.env Fixture.room (Fixture.vec 0) (Fixture.vec 1)
    3 Fixture.zeros (by decide) (fun _ _ => rfl)
  ⟨h.1, h.2.1⟩

/-- C3, as the claim states it, fails: with `depth = 0` the colour returned in the scene
`room` is not white `(1, 1, 1)`. -/
theorem ColorTrace_depth_zero_not_white :
    (Fixture.room.ColorTrace Fixture.env (Fixture.vec 0) (Fixture.vec 1) 0 Fixture.zeros).1
      ≠ NewVector (F64.fin 1) (F64.fin 1) (F64.fin 1) := by
  intro h
  have h0 : (Fixture.room.ColorTrace Fixture.env (Fixture.vec 0) (Fixture.vec 1) 0
      Fixture.zeros).1 = ⟨F64.fin 0, F64.fin 0, F64.fin 0⟩ := rfl
  rw [h0] at h
  have hx := congrArg Vector.X h
  simp [NewVector] at hx

/-- C3, amended: for every scene, origin, direction and generator, `ColorTrace` called
with `depth = 0` returns black `(0, 0, 0)` and leaves the generator as it was: the loop
never executes and the statement after the loop returns `Vector{0, 0, 0}`. -/
theorem ColorTrace_depth_zero_black (env : Env) (scn : Scene) (source towards : Vector)
    (gen : Rand) :
    scn.ColorTrace env source towards 0 gen = (⟨F64.fin 0, F64.fin 0, F64.fin 0⟩, gen) :=
  rfl

theorem ColorTrace.one_Mul (v : Vector) :
    (NewVector (F64.fin 1) (F64.fin 1) (F64.fin 1)).Mul v = v := by
  cases v
  simp [NewVector, Vector.Mul, F64.one_mul]

/-- C4: with `depth >= 1`, when the first query of `scn.Ray` misses, `ColorTrace` returns
`(1,1,1)*(1-t) + (0.5,0.7,1)*t` with `t = (unit(d).y + 1) * 0.5` and draws nothing from
the generator; the result is `(1,1,1)` when `unit(d).y = -1` and `(0.5,0.7,1)` when
`unit(d).y = 1`. It holds for every direction `d`, zero or not. -/
theorem ColorTrace_first_miss (env : Env) (scn : Scene) (source d : Vector) (depth : Int)
    (gen : Rand) (hdepth : 1 ≤ depth) (hmiss : (scn.Ray env source d).Err ≠ none) :
    scn.ColorTrace env source d depth gen =
      (((NewVector (F64.fin 1) (F64.fin 1) (F64.fin 1)).MulS
          (F64.fin 1 - ((env.Unit d).Y + F64.fin 1) * F64.fin (1 / 2))).Add
        ((NewVector (F64.fin (1 / 2)) (F64.fin (7 / 10)) (F64.fin 1)).MulS
          (((env.Unit d).Y + F64.fin 1) * F64.fin (1 / 2))), gen) ∧
    ((env.Unit d).Y = F64.fin (-1) →
      scn.ColorTrace env source d depth gen =
        (NewVector (F64.fin 1) (F64.fin 1) (F64.fin 1), gen)) ∧
    ((env.Unit d).Y = F64.fin 1 →
      scn.ColorTrace env source d depth gen =
        (NewVector (F64.fin (1 / 2)) (F64.fin (7 / 10)) (F64.fin 1), gen)) := by
  have hrun := ColorTrace.loop_escape env scn 0 depth.toNat (by omega)
    (NewVector (F64.fin 1) (F64.fin 1) (F64.fin 1)) ⟨source, d, gen⟩ 0 0
    (fun i hi => absurd hi (Nat.not_lt_zero i)) hmiss
  have hval : scn.ColorTrace env source d depth gen =
      (ColorTrace.background env d, gen) := by
    show ((ColorTrace.loop env scn depth.toNat _ source d gen 0 0).color,
      (ColorTrace.loop env scn depth.toNat _ source d gen 0 0).gen) = _
    rw [hrun]
    show (Vector.Mul (NewVector (F64.fin 1) (F64.fin 1) (F64.fin 1))
      (ColorTrace.background env d), gen) = _
    rw [ColorTrace.one_Mul]
  refine ⟨hval, fun hy => ?_, fun hy => ?_⟩
  · rw [hval, ColorTrace.background, hy]
    simp [ColorTrace.blend, NewVector, Vector.MulS, Vector.Add, F64.mul_fin, F64.add_fin,
      F64.sub_fin]
  · rw [hval, ColorTrace.background, hy]
    simp only [ColorTrace.blend, NewVector, Vector.MulS, Vector.Add, F64.mul_fin, F64.add_fin,
      F64.sub_fin]
    norm_num

/-- C4 in the empty scene, for a ray that points straight down: the colour is white. -/
theorem ColorTrace_first_miss_witness :
    (1 : Int) ≤ 1 ∧
    (Fixture.empty.Ray Fixture.env (Fixture.vec 0) Fixture.down).Err ≠ none ∧
    Fixture.empty.ColorTrace Fixture.env (Fixture.vec 0) Fixture.down 1 Fixture.zeros =
      (NewVector (F64.fin 1) (F64.fin 1) (F64.fin 1), Fixture.zeros) :=
  have hmiss : (Fixture.empty.Ray Fixture.env (Fixture.vec 0) Fixture.down).Err ≠ none := by
    simp [Ray, Fixture.empty, NewScene, Ray.sentinel]
  ⟨le_refl 1, hmiss,
    (ColorTrace_first_miss Fixture.env Fixture.empty (Fixture.vec 0) Fixture.down 1
      Fixture.zeros (le_refl 1) hmiss).2.1 (congrArg Vector.Y Fixture.unit_down)⟩

/-- C5: for every `k < depth`, when the first `k` queries of `scn.Ray` hit and the next
one misses, `ColorTrace` returns the component-wise product of the albedos of the `k`
materials hit, taken in order from the initial `(1, 1, 1)`, times the background of the
direction after `k` bounces, and leaves the generator of the path after `k` bounces;
each bounce is `ColorTrace.bounce`: `Scatter` receives the current direction as it is
and the normalized normal, the next origin is the `Point` of the hit and the next
direction is the result of `Scatter`. The run makes `k + 1` calls of `scn.Ray` and `k`
calls of `Scatter`. -/
theorem ColorTrace_escape_product (env : Env) (scn : Scene) (source towards : Vector)
    (depth : Int) (gen : Rand) (k : Nat) (hk : (k : Int) < depth)
    (hhit : ∀ i < k, (ColorTrace.hit env scn ⟨source, towards, gen⟩ i).Err = none)
    (hmiss : (ColorTrace.hit env scn ⟨source, towards, gen⟩ k).Err ≠ none) :
    scn.ColorTrace env source towards depth gen =
      (((ColorTrace.albedos env scn ⟨source, towards, gen⟩ k).foldl Vector.Mul
          (NewVector (F64.fin 1) (F64.fin 1) (F64.fin 1))).Mul
        (ColorTrace.background env
          (ColorTrace.path env scn ⟨source, towards, gen⟩ k).towards),
       (ColorTrace.path env scn ⟨source, towards, gen⟩ k).gen) ∧
    (ColorTrace.run env scn source towards depth gen).rays = k + 1 ∧
    (ColorTrace.run env scn source towards depth gen).scatters = k := by
  have hrun := ColorTrace.loop_escape env scn k depth.toNat (by omega)
    (NewVector (F64.fin 1) (F64.fin 1) (F64.fin 1)) ⟨source, towards, gen⟩ 0 0 hhit hmiss
  have hrun' : ColorTrace.run env scn source towards depth gen = _ := hrun
  simp [ColorTrace, hrun']

/-- C5 in the scene `oneBounce` with a budget of 2: the ray from the origin hits the
patch (albedo 1/2), leaves from `(1, 1, 1)` and escapes. -/
theorem ColorTrace_escape_product_witness :
    ((1 : Nat) : Int) < 2 ∧
    Fixture.oneBounce.ColorTrace Fixture.env (Fixture.vec 0) Fixture.down 2 Fixture.zeros =
      (((NewVector (F64.fin 1) (F64.fin 1) (F64.fin 1)).Mul (Fixture.vec (1 / 2))).Mul
        (ColorTrace.background Fixture.env Fixture.down), Fixture.zeros) :=
  ⟨by decide,
    (ColorTrace_escape_product Fixture.env Fixture.oneBounce (Fixture.vec 0) Fixture.down 2
      Fixture.zeros 1 (by decide)
      (fun i hi => by
        obtain rfl : i = 0 := by omega
        simp [ColorTrace.hit, ColorTrace.path, Ray, Ray.step, Fixture.oneBounce, Fixture.scene,
          Fixture.patch, F64.lt, Ray.sentinel])
      (by
        simp [ColorTrace.hit, ColorTrace.path, ColorTrace.bounce, Ray, Ray.step,
          Fixture.oneBounce, Fixture.scene, Fixture.patch, F64.lt, Ray.sentinel,
          Fixture.vec])).1⟩

/-- C6: in a scene with no registered object `Ray` returns a record with
`Err = ErrNotHit` for every origin and direction; the scene returned by `NewScene` is
such a scene. -/
theorem Ray_no_object (env : Env) (scn : Scene) (source towards : Vector)
    (hobjects : scn.objects = []) :
    (scn.Ray env source towards).Err = some Error.ErrNotHit ∧
    ∀ (s c h v : Vector) (a : F64),
      ((NewScene s c h v a).Ray env source towards).Err = some Error.ErrNotHit := by
  refine ⟨?_, fun s c h v a => rfl⟩
  simp only [Ray, hobjects, List.foldl_nil]
  rfl

/-- C6 at the scene `Fixture.empty`. -/
theorem Ray_no_object_witness :
    Fixture.empty.objects = [] ∧
    (Fixture.empty.Ray Fixture.env (Fixture.vec 0) Fixture.down).Err
      = some Error.ErrNotHit :=
  ⟨rfl, (Ray_no_object Fixture.env Fixture.empty (Fixture.vec 0) Fixture.down rfl).1⟩

/-! ## `Scene.Color` -/

/-- The loop of `Color` adds to `color` the colours of the reference samples, in order. -/
theorem Color.loop_eq_samples (env : Env) (scn : Scene) (x y depth : Int) (dx dy : F64)
    (start : Vector) (n : Nat) (color : Vector) (gen : Rand) :
    Color.loop env scn x y depth dx dy start n color gen =
      ((Reference.samples env scn x y depth dx dy start n gen).1.foldl Vector.Add color,
        (Reference.samples env scn x y depth dx dy start n gen).2) := by
  induction n generalizing color gen with
  | zero => rfl
  | succ n ih =>
    simp only [Color.loop, Reference.samples, List.foldl_cons]
    exact ih _ _

/-- C7: for `ns >= 1`, `Color(x, y, ns, depth, dx, dy, gen)` equals the reference
pipeline `Reference.Color`: one lens offset `(i, j)` from `RandomDisk(aperture, gen)`,
`start = source + unit(horizon)*i + unit(vertical)*j`, then for each of the `ns` samples
in order `a` and `b` drawn, `end = corner + horizon*((x+a)/dx) + vertical*((y+b)/dy)`
and `ColorTrace(start, end - start, depth, gen)` accumulated, and every channel of
`(sum / ns) * 255.999` truncated to 8 bits; the generator left is the same too. -/
theorem Color_eq_reference (env : Env) (fuel : Nat) (scn : Scene) (x y ns depth : Int)
    (dx dy : F64) (gen : Rand) (hns : 1 ≤ ns) :
    scn.Color env fuel x y ns depth dx dy gen =
      Reference.Color env fuel scn x y ns.toNat depth dx dy gen := by
  have hcast : F64.ofInt ns = F64.fin (ns.toNat : ℚ) := by
    have h : ((ns.toNat : Int) : ℚ) = (ns : ℚ) := by
      rw [Int.toNat_of_nonneg (by omega)]
    simp only [F64.ofInt]
    rw [← h, Int.cast_natCast]
  simp only [Color, Reference.Color]
  cases hdisk : RandomDisk scn.aperture fuel gen with
  | none => rfl
  | some lens =>
    obtain ⟨i, j, g⟩ := lens
    simp only [Option.map_some', Color.loop_eq_samples, Color.pixel, hcast]
    rfl

/-- C7 at the empty scene, pixel `(0, 0)`, one sample and a budget of one bounce. -/
theorem Color_eq_reference_witness :
    (1 : Int) ≤ 1 ∧
    Fixture.empty.Color Fixture.env 1 0 0 1 1 (F64.fin 1) (F64.fin 1) Fixture.zeros =
      Reference.Color Fixture.env 1 Fixture.empty 0 0 (1 : Int).toNat 1 (F64.fin 1) (F64.fin 1)
        Fixture.zeros :=
  ⟨le_refl 1, Color_eq_reference Fixture.env 1 Fixture.empty 0 0 1 1 (F64.fin 1) (F64.fin 1)
    Fixture.zeros (le_refl 1)⟩

theorem Color.uint8_scaled_one (env : Env) :
    F64.toUint8 env.uint8 (F64.fin 1 * F64.fin (255999 / 1000)) = 255 := by
  have hfloor : ⌊(255999 / 1000 : ℚ)⌋ = 255 := by
    rw [Int.floor_eq_iff]; norm_num
  have hpos : (0 : ℚ) ≤ 255999 / 1000 := by norm_num
  simp [F64.mul_fin, F64.toUint8, F64.truncate, hfloor, hpos]

theorem Color.uint8_scaled_zero (env : Env) :
    F64.toUint8 env.uint8 (F64.fin 0 * F64.fin (255999 / 1000)) = 0 := by
  simp [F64.mul_fin, F64.toUint8, F64.truncate]

/-- C8: the last step of `Color` maps a sum whose average `color / float64(ns)` is
exactly `(1, 1, 1)` to `(255, 255, 255)`, and one whose average is exactly `(0, 0, 0)`
to `(0, 0, 0)`: `1 * 255.999` truncates to 255 and `0 * 255.999` to 0 on every channel. -/
theorem Color_pixel_white_black (env : Env) (color : Vector) (ns : Int) :
    (color.DivS (F64.ofInt ns) = ⟨F64.fin 1, F64.fin 1, F64.fin 1⟩ →
      Color.pixel env color ns = (255, 255, 255)) ∧
    (color.DivS (F64.ofInt ns) = ⟨F64.fin 0, F64.fin 0, F64.fin 0⟩ →
      Color.pixel env color ns = (0, 0, 0)) := by
  constructor
  · intro h
    simp only [Color.pixel, h, Vector.MulS, Color.uint8_scaled_one]
  · intro h
    simp only [Color.pixel, h, Vector.MulS, Color.uint8_scaled_zero]

/-- C8 at the sums `(3, 3, 3)` and `(0, 0, 0)` of three samples. -/
theorem Color_pixel_white_black_witness :
    Color.pixel Fixture.env (Fixture.vec 3) 3 = (255, 255, 255) ∧
    Color.pixel Fixture.env (Fixture.vec 0) 3 = (0, 0, 0) :=
  ⟨(Color_pixel_white_black Fixture.env (Fixture.vec 3) 3).1 (by
      simp [Fixture.vec, Vector.DivS, F64.ofInt, F64.div_fin]),
    (Color_pixel_white_black Fixture.env (Fixture.vec 0) 3).2 (by
      simp [Fixture.vec, Vector.DivS, F64.ofInt, F64.div_fin])⟩

end Scene

/-! ## `RandomDisk` -/

/-! ## More facts about `float64` -/

namespace F64

theorem lt_of_le_ne {a b : F64} (h : le a b = true) (hne : b ≠ a) : lt a b = true := by
  cases a <;> cases b <;> simp_all [le, lt]
  exact lt_of_le_of_ne h (fun hab => hne hab.symm)

theorem lt_eq_false_of_le {a b : F64} (h : le a b = true) : lt b a = false := by
  cases a <;> cases b <;> simp_all [le, lt]

theorem not_lt_pinf_pinf : lt pinf pinf = false := rfl

theorem add_fin_zero (a : F64) : a + fin 0 = a := by
  show add a (fin 0) = a
  cases a <;> simp [add]

end F64

/-! ## `Scene.Ray`: ties and hits at infinity -/

namespace Scene

/-- The loop of `Ray` keeps the running best when no hit of the list is strictly
nearer than it. -/
theorem Ray.foldl_keep (source towards : Vector) (l : List Hittable) (c : HitData)
    (h : ∀ o ∈ l, (o.Hit source towards).Err = none →
      F64.lt (o.Hit source towards).T c.T = false) :
    l.foldl (Ray.step source towards) c = c := by
  induction l with
  | nil => rfl
  | cons o l ih =>
    have hstep : Ray.step source towards c o = c := by
      simp only [Ray.step]
      rw [if_neg]
      rintro ⟨hs, hlt⟩
      rw [h o (List.mem_cons_self _ _) hs] at hlt
      cases hlt
    rw [List.foldl_cons, hstep]
    exact ih (fun o' ho' => h o' (List.mem_cons_of_mem _ ho'))

/-- The loop of `Ray` ends on the record it started from or on the record of an object
of the list that hits. -/
theorem Ray.foldl_origin (source towards : Vector) (l : List Hittable) (c : HitData) :
    l.foldl (Ray.step source towards) c = c ∨
    ∃ o ∈ l, l.foldl (Ray.step source towards) c = o.Hit source towards ∧
      (o.Hit source towards).Err = none := by
  induction l generalizing c with
  | nil => exact Or.inl rfl
  | cons o l ih =>
    rw [List.foldl_cons]
    by_cases hrep : (o.Hit source towards).Err = none ∧
        F64.lt (o.Hit source towards).T c.T = true
    · have hstep : Ray.step source towards c o = o.Hit source towards := by
        simp only [Ray.step]; rw [if_pos hrep]
      rw [hstep]
      rcases ih (o.Hit source towards) with h | ⟨o', ho', h, hs⟩
      · exact Or.inr ⟨o, List.mem_cons_self _ _, h, hrep.1⟩
      · exact Or.inr ⟨o', List.mem_cons_of_mem _ ho', h, hs⟩
    · have hstep : Ray.step source towards c o = c := by
        simp only [Ray.step]; rw [if_neg hrep]
      rw [hstep]
      rcases ih c with h | ⟨o', ho', h, hs⟩
      · exact Or.inl h
      · exact Or.inr ⟨o', List.mem_cons_of_mem _ ho', h, hs⟩

/-- C11, as the claim states it, fails: the two objects of `skylines` both hit, at the
same distance `+Inf`, which is therefore the smallest `T` of the hits, and `Ray` does
not return the record of the first one (it returns a record with `Err = ErrNotHit`). -/
theorem Ray_tie_at_inf_not_first :
    ((Fixture.skyline 1).Hit (Fixture.vec 0) (Fixture.env.Unit Fixture.down)).Err = none ∧
    ((Fixture.skyline 2).Hit (Fixture.vec 0) (Fixture.env.Unit Fixture.down)).Err = none ∧
    ((Fixture.skyline 1).Hit (Fixture.vec 0) (Fixture.env.Unit Fixture.down)).T =
      ((Fixture.skyline 2).Hit (Fixture.vec 0) (Fixture.env.Unit Fixture.down)).T ∧
    Fixture.skylines.Ray Fixture.env (Fixture.vec 0) Fixture.down ≠
      (Fixture.skyline 1).Hit (Fixture.vec 0) (Fixture.env.Unit Fixture.down) := by
  refine ⟨rfl, rfl, rfl, fun h => ?_⟩
  have herr := congrArg HitData.Err h
  have hray : (Fixture.skylines.Ray Fixture.env (Fixture.vec 0) Fixture.down).Err
      = some Error.ErrNotHit := rfl
  rw [hray] at herr
  cases herr

/-- C11, amended: when the hits of the registered objects share a smallest `T` that is
below `+Inf`, `Ray` returns the record of the object registered first among those that
hit at that `T`: `obj` hits at a `T < +Inf` that is `<=` the `T` of every hit, and no
object registered before `obj` hits at the same `T`. -/
theorem Ray_tie_first (env : Env) (scn : Scene) (source towards : Vector)
    (pre post : List Hittable) (obj : Hittable)
    (hobjects : scn.objects = pre ++ obj :: post)
    (hhit : (obj.Hit source (env.Unit towards)).Err = none)
    (hbelow : F64.lt (obj.Hit source (env.Unit towards)).T F64.pinf = true)
    (hmin : ∀ o ∈ scn.objects, (o.Hit source (env.Unit towards)).Err = none →
      F64.le (obj.Hit source (env.Unit towards)).T (o.Hit source (env.Unit towards)).T = true)
    (hfirst : ∀ o ∈ pre, (o.Hit source (env.Unit towards)).Err = none →
      (o.Hit source (env.Unit towards)).T ≠ (obj.Hit source (env.Unit towards)).T) :
    scn.Ray env source towards = obj.Hit source (env.Unit towards) := by
  simp only [Ray, hobjects, List.foldl_append, List.foldl_cons]
  have hstep : Ray.step source (env.Unit towards)
      (pre.foldl (Ray.step source (env.Unit towards)) Ray.sentinel) obj =
      obj.Hit source (env.Unit towards) := by
    simp only [Ray.step]
    rw [if_pos]
    refine ⟨hhit, ?_⟩
    rcases Ray.foldl_origin source (env.Unit towards) pre Ray.sentinel with h | ⟨o, ho, h, hs⟩
    · rw [h]; exact hbelow
    · rw [h]
      have hmem : o ∈ scn.objects := by
        rw [hobjects]; exact List.mem_append_left _ ho
      exact F64.lt_of_le_ne (hmin o hmem hs) (hfirst o ho hs)
  rw [hstep]
  apply Ray.foldl_keep
  intro o ho hs
  have hmem : o ∈ scn.objects := by
    rw [hobjects]; exact List.mem_append_right _ (List.mem_cons_of_mem _ ho)
  exact F64.lt_eq_false_of_le (hmin o hmem hs)

/-- C11, amended, at the scene `tie`: of the two plates at distance 1 the one
registered first, whose point is `(1, 1, 1)`, is returned. -/
theorem Ray_tie_first_witness :
    Fixture.tie.objects = [Fixture.plate 2 0] ++ Fixture.plate 1 1 ::
      [Fixture.ghost, Fixture.plate 1 2] ∧
    Fixture.tie.Ray Fixture.env (Fixture.vec 0) Fixture.down =
      (Fixture.plate 1 1).Hit (Fixture.vec 0) (Fixture.env.Unit Fixture.down) :=
  ⟨rfl, Ray_tie_first Fixture.env Fixture.tie (Fixture.vec 0) Fixture.down
    [Fixture.plate 2 0] [Fixture.ghost, Fixture.plate 1 2] (Fixture.plate 1 1) rfl rfl rfl
    (by
      intro o ho hs
      simp only [Fixture.tie, Fixture.scene, List.mem_cons, List.mem_singleton,
        List.not_mem_nil, or_false] at ho
      rcases ho with rfl | rfl | rfl | rfl
      · simp [Fixture.plate, F64.le]
      · simp [Fixture.plate, F64.le]
      · simp [Fixture.ghost] at hs
      · simp [Fixture.plate, F64.le])
    (by
      intro o ho _
      simp only [List.mem_singleton] at ho
      subst ho
      simp [Fixture.plate])⟩

/-- C19: when every registered object that reports a hit reports it at `T = +Inf`, `Ray`
returns the record it started from, with `T = +Inf` and `Err = ErrNotHit`: the comparison
`data.T < closest.T` is strict, so such a hit is never selected. -/
theorem Ray_inf_hit_never_selected (env : Env) (scn : Scene) (source towards : Vector)
    (hinf : ∀ o ∈ scn.objects, (o.Hit source (env.Unit towards)).Err = none →
      (o.Hit source (env.Unit towards)).T = F64.pinf) :
    scn.Ray env source towards = Ray.sentinel ∧
    (scn.Ray env source towards).T = F64.pinf ∧
    (scn.Ray env source towards).Err = some Error.ErrNotHit := by
  have h : scn.Ray env source towards = Ray.sentinel := by
    simp only [Ray]
    apply Ray.foldl_keep
    intro o ho hs
    rw [hinf o ho hs]
    rfl
  rw [h]
  exact ⟨rfl, rfl, rfl⟩

/-- C19 at the scene `skylines`, whose two objects hit at `+Inf`. -/
theorem Ray_inf_hit_never_selected_witness :
    ((Fixture.skyline 1).Hit (Fixture.vec 0) (Fixture.env.Unit Fixture.down)).Err = none ∧
    (Fixture.skylines.Ray Fixture.env (Fixture.vec 0) Fixture.down).Err
      = some Error.ErrNotHit :=
  ⟨rfl, (Ray_inf_hit_never_selected Fixture.env Fixture.skylines (Fixture.vec 0) Fixture.down
    (by
      intro o ho _
      simp only [Fixture.skylines, Fixture.scene, List.mem_cons, List.mem_singleton,
        List.not_mem_nil, or_false] at ho
      rcases ho with rfl | rfl <;> rfl)).2.2⟩

/-- C14, as the claim states it, fails: in `float64` the normalizations of `(1, -1, 1)`
and of `3 * (1, -1, 1)` differ in the last bit, and an object whose `T` is the first
component of the direction it receives gives two different records. -/
theorem Ray_scaled_direction_differs :
    Fixture.diagonal.MulS (F64.fin 3) = ⟨F64.fin 3, F64.fin (-3), F64.fin 3⟩ ∧
    Fixture.compassScene.Ray Fixture.rounded (Fixture.vec 0) (Fixture.diagonal.MulS (F64.fin 3)) ≠
      Fixture.compassScene.Ray Fixture.rounded (Fixture.vec 0) Fixture.diagonal := by
  have hscaled : Fixture.diagonal.MulS (F64.fin 3) = ⟨F64.fin 3, F64.fin (-3), F64.fin 3⟩ := by
    simp only [Fixture.diagonal, Vector.MulS, F64.mul_fin]
    norm_num
  have h3 : Fixture.rounded.Unit ⟨F64.fin 3, F64.fin (-3), F64.fin 3⟩ =
      ⟨F64.fin (1300077228592327 / 2251799813685248),
       F64.fin (-(1300077228592327 / 2251799813685248)),
       F64.fin (1300077228592327 / 2251799813685248)⟩ := by
    have hne : ¬ ((⟨F64.fin 3, F64.fin (-3), F64.fin 3⟩ : Vector) =
        ⟨F64.fin 1, F64.fin (-1), F64.fin 1⟩) := by
      intro h
      have hx := congrArg Vector.X h
      simp only [F64.fin.injEq] at hx
      norm_num at hx
    simp only [Fixture.rounded, Fixture.roundedUnit, if_neg hne, if_true]
  have h1 : Fixture.rounded.Unit Fixture.diagonal =
      ⟨F64.fin (5200308914369309 / 9007199254740992),
       F64.fin (-(5200308914369309 / 9007199254740992)),
       F64.fin (5200308914369309 / 9007199254740992)⟩ := by
    simp only [Fixture.rounded, Fixture.roundedUnit, Fixture.diagonal, if_true]
  refine ⟨hscaled, fun h => ?_⟩
  have hT := congrArg HitData.T h
  rw [hscaled] at hT
  simp only [Ray, h1, h3, Fixture.compassScene, Fixture.scene, List.foldl_cons, List.foldl_nil,
    Ray.step, Fixture.compass, Ray.sentinel, F64.lt] at hT
  norm_num at hT

/-- C14, amended: `Ray` reads the direction only through `unit(direction)`, which every
object receives together with the origin as it is: two directions with the same
normalization give the same record; so `Ray(origin, k*d) = Ray(origin, d)` whenever the
normalization of `k*d` is that of `d` (which the rounding of `float64` does not give for
every non-zero `d` and `k > 0`). -/
theorem Ray_direction_through_unit (env : Env) (scn : Scene) (origin d : Vector) (k : F64)
    (hunit : env.Unit (d.MulS k) = env.Unit d) :
    scn.Ray env origin (d.MulS k) = scn.Ray env origin d ∧
    scn.Ray env origin d =
      scn.objects.foldl (fun closest obj =>
        if (obj.Hit origin (env.Unit d)).Err = none ∧
            F64.lt (obj.Hit origin (env.Unit d)).T closest.T = true
        then obj.Hit origin (env.Unit d) else closest) Ray.sentinel ∧
    ∀ d₂ : Vector, env.Unit d₂ = env.Unit d → scn.Ray env origin d₂ = scn.Ray env origin d := by
  refine ⟨?_, rfl, fun d₂ h => ?_⟩
  · simp only [Ray, hunit]
  · simp only [Ray, h]

/-- C14 with the normalization `taxicabUnit`, for the direction `down` and `k = 3`. -/
theorem Ray_direction_through_unit_witness :
    Fixture.env.Unit (Fixture.down.MulS (F64.fin 3)) = Fixture.env.Unit Fixture.down ∧
    Fixture.down.MulS (F64.fin 3) ≠ Fixture.down ∧
    Fixture.nearFar.Ray Fixture.env (Fixture.vec 0) (Fixture.down.MulS (F64.fin 3)) =
      Fixture.nearFar.Ray Fixture.env (Fixture.vec 0) Fixture.down :=
  have hunit : Fixture.env.Unit (Fixture.down.MulS (F64.fin 3)) =
      Fixture.env.Unit Fixture.down := by
    simp only [Fixture.env, Fixture.down, Vector.MulS, F64.mul_fin, Fixture.taxicabUnit,
      Fixture.magnitude]
    norm_num
  ⟨hunit,
    (by
      intro h
      have hy := congrArg Vector.Y h
      simp only [Fixture.down, Vector.MulS, F64.mul_fin, F64.fin.injEq] at hy
      norm_num at hy),
    (Ray_direction_through_unit Fixture.env Fixture.nearFar (Fixture.vec 0) Fixture.down
      (F64.fin 3) hunit).1⟩

/-- C13: `NewScene` returns a scene whose five accessors return the five arguments and
whose object list is empty; after each of the five mutators the matching accessor
returns the value set while the other four fields and the object list are unchanged;
`Register` appends the object at the end of the list and changes no camera field. -/
theorem Scene_accessors_mutators (source corner horizon vertical v : Vector)
    (aperture a : F64) (scn : Scene) (obj : Hittable) :
    ((NewScene source corner horizon vertical aperture).Source = source ∧
      (NewScene source corner horizon vertical aperture).Corner = corner ∧
      (NewScene source corner horizon vertical aperture).Horizon = horizon ∧
      (NewScene source corner horizon vertical aperture).Vertical = vertical ∧
      (NewScene source corner horizon vertical aperture).Aperture = aperture ∧
      (NewScene source corner horizon vertical aperture).objects = []) ∧
    ((scn.SourceTo v).Source = v ∧ (scn.SourceTo v).Corner = scn.Corner ∧
      (scn.SourceTo v).Horizon = scn.Horizon ∧ (scn.SourceTo v).Vertical = scn.Vertical ∧
      (scn.SourceTo v).Aperture = scn.Aperture ∧ (scn.SourceTo v).objects = scn.objects) ∧
    ((scn.CornerTo v).Corner = v ∧ (scn.CornerTo v).Source = scn.Source ∧
      (scn.CornerTo v).Horizon = scn.Horizon ∧ (scn.CornerTo v).Vertical = scn.Vertical ∧
      (scn.CornerTo v).Aperture = scn.Aperture ∧ (scn.CornerTo v).objects = scn.objects) ∧
    ((scn.HorizonTo v).Horizon = v ∧ (scn.HorizonTo v).Source = scn.Source ∧
      (scn.HorizonTo v).Corner = scn.Corner ∧ (scn.HorizonTo v).Vertical = scn.Vertical ∧
      (scn.HorizonTo v).Aperture = scn.Aperture ∧ (scn.HorizonTo v).objects = scn.objects) ∧
    ((scn.VerticalTo v).Vertical = v ∧ (scn.VerticalTo v).Source = scn.Source ∧
      (scn.VerticalTo v).Corner = scn.Corner ∧ (scn.VerticalTo v).Horizon = scn.Horizon ∧
      (scn.VerticalTo v).Aperture = scn.Aperture ∧ (scn.VerticalTo v).objects = scn.objects) ∧
    ((scn.ApertureTo a).Aperture = a ∧ (scn.ApertureTo a).Source = scn.Source ∧
      (scn.ApertureTo a).Corner = scn.Corner ∧ (scn.ApertureTo a).Horizon = scn.Horizon ∧
      (scn.ApertureTo a).Vertical = scn.Vertical ∧ (scn.ApertureTo a).objects = scn.objects) ∧
    ((scn.Register obj).objects = scn.objects ++ [obj] ∧
      (scn.Register obj).Source = scn.Source ∧ (scn.Register obj).Corner = scn.Corner ∧
      (scn.Register obj).Horizon = scn.Horizon ∧ (scn.Register obj).Vertical = scn.Vertical ∧
      (scn.Register obj).Aperture = scn.Aperture) :=
  ⟨⟨rfl, rfl, rfl, rfl, rfl, rfl⟩, ⟨rfl, rfl, rfl, rfl, rfl, rfl⟩, ⟨rfl, rfl, rfl, rfl, rfl, rfl⟩,
    ⟨rfl, rfl, rfl, rfl, rfl, rfl⟩, ⟨rfl, rfl, rfl, rfl, rfl, rfl⟩, ⟨rfl, rfl, rfl, rfl, rfl, rfl⟩,
    ⟨rfl, rfl, rfl, rfl, rfl, rfl⟩⟩

end Scene

/-! ## `RandomDisk`: the draws it reads and the point it returns -/

/-- With radius 0 the point that `RandomDisk` returns is `(0, 0)`. -/
theorem RandomDisk_zero_radius (fuel : Nat) (gen : Rand) (i j : F64) (g : Rand)
    (h : RandomDisk (F64.fin 0) fuel gen = some (i, j, g)) :
    i = F64.fin 0 ∧ j = F64.fin 0 := by
  induction fuel generalizing gen with
  | zero => simp [RandomDisk] at h
  | succ fuel ih =>
    simp only [RandomDisk] at h
    split at h
    · simp only [Option.some.injEq, Prod.mk.injEq] at h
      obtain ⟨hx, hy, _⟩ := h
      rw [← hx, ← hy]
      simp [Rand.Float64, F64.mul_fin]
    · exact ih _ h

/-- One iteration of `RandomDisk` on a pair of draws outside the unit disk: the pair is
discarded and the loop goes on two draws further. -/
theorem RandomDisk_reject (radius : F64) (fuel : Nat) (gen : Rand)
    (hrej : ¬ ((gen.next 0).val * (gen.next 0).val + (gen.next 1).val * (gen.next 1).val ≤ 1)) :
    RandomDisk radius (fuel + 1) gen = RandomDisk radius fuel (gen.drop 2) := by
  have hcond : ¬ (F64.le (gen.Float64.1 * gen.Float64.1 +
      gen.Float64.2.Float64.1 * gen.Float64.2.Float64.1) (F64.fin 1) = true) := by
    simp only [Rand.Float64, F64.mul_fin, F64.add_fin, F64.le_fin_fin]
    exact hrej
  simp only [RandomDisk]
  rw [if_neg hcond]
  rfl

/-- One iteration of `RandomDisk` on a pair of draws inside the unit disk: the pair is
returned, scaled by the radius. -/
theorem RandomDisk_accept (radius : F64) (fuel : Nat) (gen : Rand)
    (hacc : (gen.next 0).val * (gen.next 0).val + (gen.next 1).val * (gen.next 1).val ≤ 1) :
    RandomDisk radius (fuel + 1) gen =
      some (F64.fin (gen.next 0).val * radius, F64.fin (gen.next 1).val * radius,
        gen.drop 2) := by
  have hcond : F64.le (gen.Float64.1 * gen.Float64.1 +
      gen.Float64.2.Float64.1 * gen.Float64.2.Float64.1) (F64.fin 1) = true := by
    simp only [Rand.Float64, F64.mul_fin, F64.add_fin, F64.le_fin_fin]
    exact hacc
  simp only [RandomDisk]
  rw [if_pos hcond]
  rfl

theorem Rand.drop_drop (gen : Rand) (m n : Nat) : (gen.drop m).drop n = gen.drop (m + n) := by
  simp only [Rand.drop, Nat.add_assoc, Nat.add_comm n m]

theorem Rand.drop_next (gen : Rand) (m n : Nat) : (gen.drop m).next n = gen.next (n + m) := rfl

/-- `RandomDisk` returns as soon as some pair of draws lies in the unit disk and the fuel
reaches it; the point returned is a pair of draws multiplied by the radius. -/
theorem RandomDisk_returns (radius : F64) (gen : Rand) (k fuel : Nat)
    (hacc : (gen.next (2 * k)).val * (gen.next (2 * k)).val +
      (gen.next (2 * k + 1)).val * (gen.next (2 * k + 1)).val ≤ 1)
    (hfuel : k < fuel) :
    ∃ (p q : Draw) (g : Rand),
      RandomDisk radius fuel gen = some (F64.fin p.val * radius, F64.fin q.val * radius, g) := by
  induction k generalizing gen fuel with
  | zero =>
    obtain ⟨m, rfl⟩ : ∃ m, fuel = m + 1 := ⟨fuel - 1, by omega⟩
    exact ⟨gen.next 0, gen.next 1, gen.drop 2, RandomDisk_accept radius m gen hacc⟩
  | succ k ih =>
    obtain ⟨m, rfl⟩ : ∃ m, fuel = m + 1 := ⟨fuel - 1, by omega⟩
    by_cases h0 : (gen.next 0).val * (gen.next 0).val + (gen.next 1).val * (gen.next 1).val ≤ 1
    · exact ⟨gen.next 0, gen.next 1, gen.drop 2, RandomDisk_accept radius m gen h0⟩
    · rw [RandomDisk_reject radius m gen h0]
      apply ih (gen.drop 2) m _ (by omega)
      have e1 : 2 * (k + 1) = 2 * k + 2 := by omega
      have e2 : 2 * k + 2 + 1 = 2 * k + 1 + 2 := by omega
      have h := hacc
      rw [e1, e2] at h
      exact h

/-- `RandomDisk` is `RandomDiskOn` at the operations that do not round. -/
theorem RandomDiskOn_exact (radius : F64) (fuel : Nat) (gen : Rand) :
    RandomDiskOn Float64Ops.exact radius fuel gen = RandomDisk radius fuel gen := by
  induction fuel generalizing gen with
  | zero => rfl
  | succ fuel ih =>
    simp only [RandomDiskOn, RandomDisk, ih]
    rfl

/-- One iteration of `RandomDiskOn` on a pair of draws that fails the test: the pair is
discarded and the loop goes on two draws further. -/
theorem RandomDiskOn_reject (ops : Float64Ops) (radius : F64) (fuel : Nat) (gen : Rand)
    (hrej : RandomDiskOn.accepts ops gen 0 = false) :
    RandomDiskOn ops radius (fuel + 1) gen = RandomDiskOn ops radius fuel (gen.drop 2) := by
  have hcond : ¬ (ops.le (ops.add (ops.mul gen.Float64.1 gen.Float64.1)
      (ops.mul gen.Float64.2.Float64.1 gen.Float64.2.Float64.1)) (F64.fin 1) = true) := by
    intro h
    have h' : RandomDiskOn.accepts ops gen 0 = true := h
    rw [hrej] at h'
    cases h'
  simp only [RandomDiskOn]
  rw [if_neg hcond]
  rfl

/-- One iteration of `RandomDiskOn` on a pair of draws that passes the test: the pair is
returned, each draw multiplied by the radius. -/
theorem RandomDiskOn_accept (ops : Float64Ops) (radius : F64) (fuel : Nat) (gen : Rand)
    (hacc : RandomDiskOn.accepts ops gen 0 = true) :
    RandomDiskOn ops radius (fuel + 1) gen =
      some (ops.mul (F64.fin (gen.next 0).val) radius, ops.mul (F64.fin (gen.next 1).val) radius,
        gen.drop 2) := by
  have hcond : ops.le (ops.add (ops.mul gen.Float64.1 gen.Float64.1)
      (ops.mul gen.Float64.2.Float64.1 gen.Float64.2.Float64.1)) (F64.fin 1) = true := hacc
  simp only [RandomDiskOn]
  rw [if_pos hcond]
  rfl

/-- The test on the pair of index `i` after two draws is the test on the pair of index
`i + 1`. -/
theorem RandomDiskOn.accepts_drop (ops : Float64Ops) (gen : Rand) (i : Nat) :
    RandomDiskOn.accepts ops (gen.drop 2) i = RandomDiskOn.accepts ops gen (i + 1) := by
  have e1 : 2 * i + 2 = 2 * (i + 1) := by omega
  have e2 : 2 * i + 1 + 2 = 2 * (i + 1) + 1 := by omega
  simp only [RandomDiskOn.accepts, Rand.drop_next, e1, e2]

/-- C15: `RandomDisk` reads the draws in consecutive pairs `(x_i, y_i)` (draws `2i` and
`2i+1`), whatever the rounding of its `float64` operations is. When the first pair that
passes the test `x*x + y*y <= 1` of the code is the pair of index `k`, the call returns
as soon as it may run `k + 1` iterations, the result is `(x_k * radius, y_k * radius)`
and the generator is left `2 * (k + 1)` draws further; with `k` iterations or fewer it
has not returned yet: the `k` earlier pairs are rejected and discarded. -/
theorem RandomDisk_first_accepted (ops : Float64Ops) (radius : F64) (gen : Rand) (k : Nat)
    (hrej : ∀ i < k, RandomDiskOn.accepts ops gen i = false)
    (hacc : RandomDiskOn.accepts ops gen k = true) :
    (∀ fuel, k < fuel → RandomDiskOn ops radius fuel gen =
      some (ops.mul (F64.fin (gen.next (2 * k)).val) radius,
        ops.mul (F64.fin (gen.next (2 * k + 1)).val) radius, gen.drop (2 * (k + 1)))) ∧
    (∀ fuel, fuel ≤ k → RandomDiskOn ops radius fuel gen = none) := by
  induction k generalizing gen with
  | zero =>
    constructor
    · intro fuel hfuel
      obtain ⟨m, rfl⟩ : ∃ m, fuel = m + 1 := ⟨fuel - 1, by omega⟩
      exact RandomDiskOn_accept ops radius m gen hacc
    · intro fuel hfuel
      obtain rfl : fuel = 0 := by omega
      rfl
  | succ k ih =>
    have h0 : RandomDiskOn.accepts ops gen 0 = false := hrej 0 (Nat.succ_pos k)
    obtain ⟨ih1, ih2⟩ := ih (gen.drop 2)
      (fun i hi => by
        rw [RandomDiskOn.accepts_drop]; exact hrej (i + 1) (Nat.succ_lt_succ hi))
      (by rw [RandomDiskOn.accepts_drop]; exact hacc)
    constructor
    · intro fuel hfuel
      obtain ⟨m, rfl⟩ : ∃ m, fuel = m + 1 := ⟨fuel - 1, by omega⟩
      rw [RandomDiskOn_reject ops radius m gen h0, ih1 m (by omega), Rand.drop_drop,
        Rand.drop_next, Rand.drop_next]
      have e1 : 2 * k + 2 = 2 * (k + 1) := by omega
      have e2 : 2 * k + 1 + 2 = 2 * (k + 1) + 1 := by omega
      have e3 : 2 + 2 * (k + 1) = 2 * (k + 1 + 1) := by omega
      rw [e1, e2, e3]
    · intro fuel hfuel
      cases fuel with
      | zero => rfl
      | succ m => rw [RandomDiskOn_reject ops radius m gen h0]; exact ih2 m (by omega)

/-- C15 at the generator `retry`, with the operations that do not round (on these draws
the operations of Go do not round either): the pair of index 0, `(7/8, 7/8)`, is
rejected and the pair of index 1, `(1/2, 1/2)`, is accepted; with radius 2 the point
`(1/2 * 2, 1/2 * 2)` is returned after four draws. -/
theorem RandomDisk_first_accepted_witness :
    RandomDiskOn.accepts Float64Ops.exact Fixture.retry 0 = false ∧
    RandomDiskOn.accepts Float64Ops.exact Fixture.retry 1 = true ∧
    RandomDiskOn Float64Ops.exact (F64.fin 2) 2 Fixture.retry =
      some (F64.fin (Fixture.retry.next 2).val * F64.fin 2,
        F64.fin (Fixture.retry.next 3).val * F64.fin 2, Fixture.retry.drop 4) ∧
    RandomDiskOn Float64Ops.exact (F64.fin 2) 1 Fixture.retry = none :=
  have h0 : RandomDiskOn.accepts Float64Ops.exact Fixture.retry 0 = false := by
    show F64.le (F64.fin _ * F64.fin _ + F64.fin _ * F64.fin _) (F64.fin 1) = false
    simp only [F64.mul_fin, F64.add_fin, F64.le, Fixture.retry]
    norm_num
  have h1 : RandomDiskOn.accepts Float64Ops.exact Fixture.retry 1 = true := by
    show F64.le (F64.fin _ * F64.fin _ + F64.fin _ * F64.fin _) (F64.fin 1) = true
    simp only [F64.mul_fin, F64.add_fin, F64.le, Fixture.retry]
    norm_num
  have h := RandomDisk_first_accepted Float64Ops.exact (F64.fin 2) Fixture.retry 1
    (by
      intro i hi
      obtain rfl : i = 0 := by omega
      exact h0)
    h1
  ⟨h0, h1, h.1 2 (by decide), h.2 1 (le_refl 1)⟩

/-- C16, as the claim states it, fails: the radius `+Inf` is `>= 0`, and with a first
draw equal to `0` the first coordinate returned is `0 * Inf = NaN`, which is not
`>= 0`. -/
theorem RandomDisk_inf_radius_not_in_quadrant :
    F64.le (F64.fin 0) F64.pinf = true ∧
    ∃ x y g, RandomDisk F64.pinf 1 Fixture.zeros = some (x, y, g) ∧
      F64.le (F64.fin 0) x = false := by
  refine ⟨rfl, F64.fin (Fixture.zeros.next 0).val * F64.pinf,
    F64.fin (Fixture.zeros.next 1).val * F64.pinf, Fixture.zeros.drop 2,
    RandomDisk_accept F64.pinf 0 Fixture.zeros (by simp [Fixture.zeros]), ?_⟩
  have hnan : F64.fin (Fixture.zeros.next 0).val * F64.pinf = F64.nan := by
    show F64.mul (F64.fin 0) F64.pinf = F64.nan
    simp [F64.mul, F64.infTimes]
  rw [hnan]
  rfl

/-- C16, amended: for a finite radius `>= 0` (the draws lie in `[0, 1)`), both
coordinates returned by `RandomDisk` lie in `[0, radius]`: no point with a negative
coordinate is returned, so the lens offset of `Color` is never on the negative side of
the horizon or of the vertical axis. -/
theorem RandomDisk_in_quadrant (radius : ℚ) (hradius : 0 ≤ radius) (fuel : Nat) (gen : Rand)
    (x y : F64) (g : Rand) (h : RandomDisk (F64.fin radius) fuel gen = some (x, y, g)) :
    F64.le (F64.fin 0) x = true ∧ F64.le x (F64.fin radius) = true ∧
    F64.le (F64.fin 0) y = true ∧ F64.le y (F64.fin radius) = true := by
  induction fuel generalizing gen with
  | zero => simp [RandomDisk] at h
  | succ fuel ih =>
    simp only [RandomDisk] at h
    split at h
    · simp only [Option.some.injEq, Prod.mk.injEq] at h
      obtain ⟨hx, hy, _⟩ := h
      rw [← hx, ← hy]
      simp only [Rand.Float64, F64.mul_fin, F64.le_fin_fin]
      have ha := (gen.next 0).property
      have hb := (gen.next (0 + 1)).property
      refine ⟨mul_nonneg ha.1 hradius, ?_, mul_nonneg hb.1 hradius, ?_⟩
      · exact mul_le_of_le_one_left hradius (le_of_lt ha.2)
      · exact mul_le_of_le_one_left hradius (le_of_lt hb.2)
    · exact ih _ h

/-- C16, amended, at radius 2 and the generator `retry`: the point returned is
`(1/2 * 2, 1/2 * 2)`. -/
theorem RandomDisk_in_quadrant_witness :
    (0 : ℚ) ≤ 2 ∧
    RandomDisk (F64.fin 2) 2 Fixture.retry =
      some (F64.fin (Fixture.retry.next 2).val * F64.fin 2,
        F64.fin (Fixture.retry.next 3).val * F64.fin 2, Fixture.retry.drop 4) ∧
    F64.le (F64.fin 0) (F64.fin (Fixture.retry.next 2).val * F64.fin 2) = true :=
  have hrun : RandomDisk (F64.fin 2) 2 Fixture.retry =
      some (F64.fin (Fixture.retry.next 2).val * F64.fin 2,
        F64.fin (Fixture.retry.next 3).val * F64.fin 2, Fixture.retry.drop 4) := by
    rw [RandomDisk_reject (F64.fin 2) 1 Fixture.retry (by simp only [Fixture.retry]; norm_num),
      RandomDisk_accept (F64.fin 2) 0 (Fixture.retry.drop 2)
        (by simp only [Fixture.retry, Rand.drop]; norm_num)]
    rfl
  ⟨by norm_num, hrun,
    (RandomDisk_in_quadrant 2 (by norm_num) 2 Fixture.retry _ _ _ hrun).1⟩

namespace Scene

/-- C12: when the aperture is 0 and the normalized horizon and vertical are finite
vectors (what `Vector.Unit` gives for the non-zero vectors of a camera), the origin that
`Color` computes for its rays, `source + unit(horizon)*i + unit(vertical)*j`, is the
camera source itself, for every pixel and generator: `Color` is the sampler whose loop
passes `scn.source` as the origin of every call of `ColorTrace`. -/
theorem Color_pinhole (env : Env) (fuel : Nat) (scn : Scene) (x y ns depth : Int)
    (dx dy : F64) (gen : Rand) (haperture : scn.aperture = F64.fin 0)
    (hhorizon : (env.Unit scn.horizon).isFinite = true)
    (hvertical : (env.Unit scn.vertical).isFinite = true) :
    (∀ i j g, RandomDisk scn.aperture fuel gen = some (i, j, g) →
      (scn.source.Add ((env.Unit scn.horizon).MulS i)).Add ((env.Unit scn.vertical).MulS j)
        = scn.source) ∧
    scn.Color env fuel x y ns depth dx dy gen =
      (RandomDisk scn.aperture fuel gen).map (fun lens =>
        (Color.pixel env (Color.loop env scn x y depth dx dy scn.source ns.toNat
            ⟨F64.fin 0, F64.fin 0, F64.fin 0⟩ lens.2.2).1 ns,
          (Color.loop env scn x y depth dx dy scn.source ns.toNat
            ⟨F64.fin 0, F64.fin 0, F64.fin 0⟩ lens.2.2).2)) := by
  have hzero : ∀ v : Vector, v.isFinite = true →
      v.MulS (F64.fin 0) = ⟨F64.fin 0, F64.fin 0, F64.fin 0⟩ := by
    intro v hv
    obtain ⟨vx, vy, vz⟩ := v
    simp only [Vector.isFinite, Bool.and_eq_true] at hv
    obtain ⟨qx, rfl⟩ := F64.eq_fin_of_isFinite hv.1.1
    obtain ⟨qy, rfl⟩ := F64.eq_fin_of_isFinite hv.1.2
    obtain ⟨qz, rfl⟩ := F64.eq_fin_of_isFinite hv.2
    simp [Vector.MulS, F64.mul_fin]
  have hadd : ∀ v : Vector, v.Add ⟨F64.fin 0, F64.fin 0, F64.fin 0⟩ = v := by
    intro v
    simp [Vector.Add, F64.add_fin_zero]
  have hstart : ∀ i j g, RandomDisk scn.aperture fuel gen = some (i, j, g) →
      (scn.source.Add ((env.Unit scn.horizon).MulS i)).Add ((env.Unit scn.vertical).MulS j)
        = scn.source := by
    intro i j g h
    rw [haperture] at h
    obtain ⟨hi, hj⟩ := RandomDisk_zero_radius fuel gen i j g h
    rw [hi, hj, hzero _ hhorizon, hzero _ hvertical, hadd, hadd]
  refine ⟨hstart, ?_⟩
  simp only [Color]
  cases hdisk : RandomDisk scn.aperture fuel gen with
  | none => rfl
  | some lens =>
    obtain ⟨i, j, g⟩ := lens
    simp only [Option.map_some', hstart i j g hdisk]

/-- C12 at the scene `Fixture.empty`, whose aperture is 0. -/
theorem Color_pinhole_witness :
    Fixture.empty.aperture = F64.fin 0 ∧
    RandomDisk Fixture.empty.aperture 1 Fixture.zeros =
      some (F64.fin 0, F64.fin 0, Fixture.zeros.drop 2) ∧
    (Fixture.empty.source.Add ((Fixture.env.Unit Fixture.empty.horizon).MulS (F64.fin 0))).Add
      ((Fixture.env.Unit Fixture.empty.vertical).MulS (F64.fin 0)) = Fixture.empty.source :=
  have hdisk : RandomDisk Fixture.empty.aperture 1 Fixture.zeros =
      some (F64.fin 0, F64.fin 0, Fixture.zeros.drop 2) := by
    have h := RandomDisk_accept (F64.fin 0) 0 Fixture.zeros (by simp [Fixture.zeros])
    simp only [Fixture.zeros, F64.mul_fin] at h
    simpa [Fixture.empty, NewScene, Fixture.zeros] using h
  ⟨rfl, hdisk,
    (Color_pinhole Fixture.env 1 Fixture.empty 0 0 1 1 (F64.fin 1) (F64.fin 1) Fixture.zeros
      rfl Fixture.unit_camera_finite.1 Fixture.unit_camera_finite.2).1 _ _ _ hdisk⟩

/-! ## `Scene.ColorTrace`: the budget after an escape -/

/-- The first `n` queries of a path either all hit, or there is a first one that misses. -/
theorem ColorTrace.hits_or_escape (env : Env) (scn : Scene) (p : ColorTrace.Path) (n : Nat) :
    (∀ k < n, (ColorTrace.hit env scn p k).Err = none) ∨
    ∃ k < n, (∀ i < k, (ColorTrace.hit env scn p i).Err = none) ∧
      (ColorTrace.hit env scn p k).Err ≠ none := by
  induction n with
  | zero => exact Or.inl (fun k hk => absurd hk (Nat.not_lt_zero k))
  | succ n ih =>
    rcases ih with hall | ⟨k, hk, hhit, hmiss⟩
    · by_cases hn : (ColorTrace.hit env scn p n).Err = none
      · left
        intro k hk
        rcases Nat.lt_succ_iff_lt_or_eq.1 hk with h | rfl
        · exact hall k h
        · exact hn
      · exact Or.inr ⟨n, Nat.lt_succ_self n, hall, hn⟩
    · exact Or.inr ⟨k, Nat.lt_succ_of_lt hk, hhit, hmiss⟩

/-- C17: once the ray escapes, the budget does not matter. A run of `ColorTrace` returns
through the no-hit branch exactly when it made one call of `scn.Ray` more than calls of
`Scatter`; when the run with depth `d` does so, the call with any depth `d' >= d`
returns the same colour and leaves the generator in the same state. -/
theorem ColorTrace_budget_after_escape (env : Env) (scn : Scene) (source towards : Vector)
    (d d' : Int) (gen : Rand) (hle : d ≤ d')
    (hescape : (ColorTrace.run env scn source towards d gen).rays =
      (ColorTrace.run env scn source towards d gen).scatters + 1) :
    scn.ColorTrace env source towards d' gen = scn.ColorTrace env source towards d gen := by
  rcases ColorTrace.hits_or_escape env scn ⟨source, towards, gen⟩ d.toNat with
    hall | ⟨k, hk, hhit, hmiss⟩
  · have h := ColorTrace.loop_exhaust env scn d.toNat
      (NewVector (F64.fin 1) (F64.fin 1) (F64.fin 1)) ⟨source, towards, gen⟩ 0 0 hall
    have hrun : ColorTrace.run env scn source towards d gen = _ := h
    rw [hrun] at hescape
    simp at hescape
  · have h1 := ColorTrace.loop_escape env scn k d.toNat hk
      (NewVector (F64.fin 1) (F64.fin 1) (F64.fin 1)) ⟨source, towards, gen⟩ 0 0 hhit hmiss
    have h2 := ColorTrace.loop_escape env scn k d'.toNat (by omega)
      (NewVector (F64.fin 1) (F64.fin 1) (F64.fin 1)) ⟨source, towards, gen⟩ 0 0 hhit hmiss
    have hrun1 : ColorTrace.run env scn source towards d gen = _ := h1
    have hrun2 : ColorTrace.run env scn source towards d' gen = _ := h2
    simp only [ColorTrace, hrun1, hrun2]

/-- C17 in the empty scene: the ray escapes at once with depth 1, and depth 3 gives the
same result. -/
theorem ColorTrace_budget_after_escape_witness :
    (1 : Int) ≤ 3 ∧
    (ColorTrace.run Fixture.env Fixture.empty (Fixture.vec 0) Fixture.down 1 Fixture.zeros).rays
      = (ColorTrace.run Fixture.env Fixture.empty (Fixture.vec 0) Fixture.down 1
          Fixture.zeros).scatters + 1 ∧
    Fixture.empty.ColorTrace Fixture.env (Fixture.vec 0) Fixture.down 3 Fixture.zeros =
      Fixture.empty.ColorTrace Fixture.env (Fixture.vec 0) Fixture.down 1 Fixture.zeros :=
  ⟨by decide, rfl,
    ColorTrace_budget_after_escape Fixture.env Fixture.empty (Fixture.vec 0) Fixture.down 1 3
      Fixture.zeros (by decide) rfl⟩

end Scene

/-! ## `Scene.Color` in a scene without objects -/

namespace F64

/-- The conversion `uint8(v)` of a finite `v` with `lo <= v < hi + 1` and `hi <= 255` lies
between `lo` and `hi`. -/
theorem toUint8_bounds (other : F64 → Nat) (q : ℚ) (lo hi : Nat) (hlo : (lo : ℚ) ≤ q)
    (hhi : q < (hi : ℚ) + 1) (h255 : hi ≤ 255) :
    lo ≤ toUint8 other (fin q) ∧ toUint8 other (fin q) ≤ hi := by
  have hq : (0 : ℚ) ≤ q := le_trans (Nat.cast_nonneg lo) hlo
  have htr : truncate q = ⌊q⌋ := by simp [truncate, hq]
  have h1 : (lo : Int) ≤ ⌊q⌋ := Int.le_floor.2 (by exact_mod_cast hlo)
  have h2 : ⌊q⌋ < (hi : Int) + 1 := Int.floor_lt.2 (by exact_mod_cast hhi)
  have h0 : (0 : Int) ≤ ⌊q⌋ := le_trans (Int.natCast_nonneg lo) h1
  have hval : toUint8 other (fin q) = ⌊q⌋.toNat := by
    simp only [toUint8, htr]
    rw [if_pos ⟨h0, by omega⟩]
  rw [hval]
  omega

end F64

namespace Scene

/-- With `depth >= 1`, a first query that misses makes `ColorTrace` return the
background of the direction and draw nothing. -/
theorem ColorTrace.first_miss_background (env : Env) (scn : Scene) (source d : Vector)
    (depth : Int) (gen : Rand) (hdepth : 1 ≤ depth)
    (hmiss : (scn.Ray env source d).Err ≠ none) :
    scn.ColorTrace env source d depth gen = (ColorTrace.background env d, gen) := by
  have hrun := ColorTrace.loop_escape env scn 0 depth.toNat (by omega)
    (NewVector (F64.fin 1) (F64.fin 1) (F64.fin 1)) ⟨source, d, gen⟩ 0 0
    (fun i hi => absurd hi (Nat.not_lt_zero i)) hmiss
  show ((ColorTrace.loop env scn depth.toNat _ source d gen 0 0).color,
    (ColorTrace.loop env scn depth.toNat _ source d gen 0 0).gen) = _
  rw [hrun]
  show (Vector.Mul (NewVector (F64.fin 1) (F64.fin 1) (F64.fin 1))
    (ColorTrace.background env d), gen) = _
  rw [ColorTrace.one_Mul]

/-- The sky gradient at a direction whose normalized vertical component is the finite
value `u`. -/
theorem ColorTrace.background_fin (env : Env) (d : Vector) (u : ℚ)
    (hu : (env.Unit d).Y = F64.fin u) :
    ColorTrace.background env d =
      ⟨F64.fin (1 - (u + 1) / 4), F64.fin (1 - 3 * (u + 1) / 20), F64.fin 1⟩ := by
  simp only [ColorTrace.background, ColorTrace.blend, hu, NewVector, Vector.MulS, Vector.Add,
    F64.add_fin, F64.mul_fin, F64.sub_fin, Vector.mk.injEq, F64.fin.injEq]
  refine ⟨?_, ?_, ?_⟩ <;> ring

/-- One iteration of the loop of `Color` in a scene where no ray hits. -/
theorem Color.loop_succ_of_miss (env : Env) (scn : Scene) (x y depth : Int) (dx dy : F64)
    (start : Vector) (hdepth : 1 ≤ depth) (hmiss : ∀ s d, (scn.Ray env s d).Err ≠ none)
    (n : Nat) (color : Vector) (gen : Rand) :
    Color.loop env scn x y depth dx dy start (n + 1) color gen =
      Color.loop env scn x y depth dx dy start n
        (color.Add (ColorTrace.background env
          (Reference.direction scn x y dx dy start (F64.fin (gen.next 0).val)
            (F64.fin (gen.next 1).val))))
        (gen.drop 2) := by
  show Color.loop env scn x y depth dx dy start n
      (color.Add (scn.ColorTrace env start
        (Reference.direction scn x y dx dy start (F64.fin (gen.next 0).val)
          (F64.fin (gen.next 1).val)) depth (gen.drop 2)).1)
      (scn.ColorTrace env start
        (Reference.direction scn x y dx dy start (F64.fin (gen.next 0).val)
          (F64.fin (gen.next 1).val)) depth (gen.drop 2)).2 = _
  rw [ColorTrace.first_miss_background env scn start _ depth (gen.drop 2) hdepth (hmiss _ _)]

/-- The loop of `Color` in a scene where no ray hits, when the normalized vertical
component of every direction is finite and in `[-1, 1]`: each of the `n` samples adds a
value of `[1/2, 1]` to the first channel, of `[7/10, 1]` to the second and exactly `1` to
the third, and takes two draws. -/
theorem Color.loop_sky (env : Env) (scn : Scene) (x y depth : Int) (dx dy : F64)
    (start : Vector) (hdepth : 1 ≤ depth) (hmiss : ∀ s d, (scn.Ray env s d).Err ≠ none)
    (hunit : ∀ a b : Draw, ∃ u : ℚ,
      (env.Unit (Reference.direction scn x y dx dy start (F64.fin a.val) (F64.fin b.val))).Y
        = F64.fin u ∧ -1 ≤ u ∧ u ≤ 1)
    (n : Nat) (r₀ g₀ b₀ : ℚ) (gen : Rand) :
    ∃ r g : ℚ,
      Color.loop env scn x y depth dx dy start n ⟨F64.fin r₀, F64.fin g₀, F64.fin b₀⟩ gen =
        (⟨F64.fin r, F64.fin g, F64.fin (b₀ + n)⟩, gen.drop (2 * n)) ∧
      r₀ + n / 2 ≤ r ∧ r ≤ r₀ + n ∧ g₀ + 7 * n / 10 ≤ g ∧ g ≤ g₀ + n := by
  induction n generalizing r₀ g₀ b₀ gen with
  | zero =>
    refine ⟨r₀, g₀, ?_, by simp, by simp, by simp, by simp⟩
    simp [Color.loop, Rand.drop]
  | succ n ih =>
    obtain ⟨u, hu, hu1, hu2⟩ := hunit (gen.next 0) (gen.next 1)
    rw [Color.loop_succ_of_miss env scn x y depth dx dy start hdepth hmiss,
      ColorTrace.background_fin env _ u hu]
    simp only [Vector.Add, F64.add_fin]
    obtain ⟨r, g, hloop, h1, h2, h3, h4⟩ :=
      ih (r₀ + (1 - (u + 1) / 4)) (g₀ + (1 - 3 * (u + 1) / 20)) (b₀ + 1) (gen.drop 2)
    refine ⟨r, g, ?_, ?_, ?_, ?_, ?_⟩
    · rw [hloop, Rand.drop_drop]
      have e1 : 2 + 2 * n = 2 * (n + 1) := by omega
      have e2 : b₀ + 1 + (n : ℚ) = b₀ + ((n + 1 : Nat) : ℚ) := by push_cast; ring
      rw [e1, e2]
    · push_cast; linarith
    · push_cast; linarith
    · push_cast; linarith
    · push_cast; linarith

/-- C18: in a scene with no registered object, with `ns >= 1` and `depth >= 1`, when
some pair of draws of the generator lies in the unit disk (so that `RandomDisk` returns)
and every ray direction that the pixel can produce has a normalized vertical component
that is finite and in `[-1, 1]` (what `Vector.Unit` gives for a non-zero direction),
`Color` returns `b = 255`, `127 <= r <= 255` and `179 <= g <= 255`: every sample is a sky
colour with channels in `[0.5, 1]`, `[0.7, 1]` and exactly `1`, so is the average, and
the scaled value stays below 256, inside the range of `uint8`. -/
theorem Color_empty_scene_range (env : Env) (fuel : Nat) (scn : Scene) (x y ns depth : Int)
    (dx dy : F64) (gen : Rand) (k : Nat)
    (hobjects : scn.objects = []) (hns : 1 ≤ ns) (hdepth : 1 ≤ depth)
    (hacc : (gen.next (2 * k)).val * (gen.next (2 * k)).val +
      (gen.next (2 * k + 1)).val * (gen.next (2 * k + 1)).val ≤ 1)
    (hfuel : k < fuel)
    (hunit : ∀ p q a b : Draw, ∃ u : ℚ,
      (env.Unit (Reference.direction scn x y dx dy
        ((scn.source.Add ((env.Unit scn.horizon).MulS (F64.fin p.val * scn.aperture))).Add
          ((env.Unit scn.vertical).MulS (F64.fin q.val * scn.aperture)))
        (F64.fin a.val) (F64.fin b.val))).Y = F64.fin u ∧ -1 ≤ u ∧ u ≤ 1) :
    ∃ (r g : Nat) (after : Rand),
      scn.Color env fuel x y ns depth dx dy gen = some ((r, g, 255), after) ∧
      127 ≤ r ∧ r ≤ 255 ∧ 179 ≤ g ∧ g ≤ 255 := by
  have hmiss : ∀ s d, (scn.Ray env s d).Err ≠ none := by
    intro s d
    simp [Ray, hobjects, Ray.sentinel]
  obtain ⟨p, q, g₀, hdisk⟩ := RandomDisk_returns scn.aperture gen k fuel hacc hfuel
  obtain ⟨n, hn, hn1⟩ : ∃ n : Nat, ns = (n : Int) ∧ 1 ≤ n := ⟨ns.toNat, by omega, by omega⟩
  subst hn
  obtain ⟨sr, sg, hloop, h1, h2, h3, h4⟩ := Color.loop_sky env scn x y depth dx dy
    ((scn.source.Add ((env.Unit scn.horizon).MulS (F64.fin p.val * scn.aperture))).Add
      ((env.Unit scn.vertical).MulS (F64.fin q.val * scn.aperture)))
    hdepth hmiss (hunit p q) n 0 0 0 g₀
  have hnq : (1 : ℚ) ≤ (n : ℚ) := by exact_mod_cast hn1
  have hpos : (0 : ℚ) < (n : ℚ) := by linarith
  have hne : (n : ℚ) ≠ 0 := ne_of_gt hpos
  have hr1 : 1 / 2 ≤ sr / n := by rw [le_div_iff₀ hpos]; linarith
  have hr2 : sr / n ≤ 1 := by rw [div_le_one hpos]; linarith
  have hg1 : 7 / 10 ≤ sg / n := by rw [le_div_iff₀ hpos]; linarith
  have hg2 : sg / n ≤ 1 := by rw [div_le_one hpos]; linarith
  have hb : (0 + (n : ℚ)) / n = 1 := by rw [zero_add, div_self hne]
  have hR := F64.toUint8_bounds env.uint8 (sr / n * (255999 / 1000)) 127 255
    (by push_cast; linarith) (by push_cast; linarith) (le_refl 255)
  have hG := F64.toUint8_bounds env.uint8 (sg / n * (255999 / 1000)) 179 255
    (by push_cast; linarith) (by push_cast; linarith) (le_refl 255)
  have hB := F64.toUint8_bounds env.uint8 ((0 + (n : ℚ)) / n * (255999 / 1000)) 255 255
    (by rw [hb]; norm_num) (by rw [hb]; norm_num) (le_refl 255)
  have hB' : F64.toUint8 env.uint8 (F64.fin ((0 + (n : ℚ)) / n * (255999 / 1000))) = 255 :=
    Nat.le_antisymm hB.2 hB.1
  refine ⟨F64.toUint8 env.uint8 (F64.fin (sr / n * (255999 / 1000))),
    F64.toUint8 env.uint8 (F64.fin (sg / n * (255999 / 1000))), g₀.drop (2 * n), ?_,
    hR.1, hR.2, hG.1, hG.2⟩
  simp only [Color, hdisk, Int.toNat_natCast, hloop]
  simp only [Color.pixel, Vector.DivS, Vector.MulS, F64.ofInt, Int.cast_natCast,
    F64.div_fin _ _ hne, F64.mul_fin, hB']

/-- The directions of the rays of the pixel `(0, 0)` of the scene `Fixture.empty`, for
an image of width and height 1: the ray of the draws `a` and `b` has the direction
`(a, b, -1)`, which is not zero, and its normalized vertical component is in `[0, 1)`. -/
theorem Color.fixture_directions (p q a b : Draw) :
    Reference.direction Fixture.empty 0 0 (F64.fin 1) (F64.fin 1)
        ((Fixture.empty.source.Add
          ((Fixture.env.Unit Fixture.empty.horizon).MulS (F64.fin p.val * Fixture.empty.aperture))).Add
          ((Fixture.env.Unit Fixture.empty.vertical).MulS (F64.fin q.val * Fixture.empty.aperture)))
        (F64.fin a.val) (F64.fin b.val) = ⟨F64.fin a.val, F64.fin b.val, F64.fin (-1)⟩ ∧
    (Fixture.env.Unit ⟨F64.fin a.val, F64.fin b.val, F64.fin (-1)⟩).Y =
      F64.fin (b.val / (a.val + b.val + 1)) := by
  have ha := a.property.1
  have hb := b.property.1
  constructor
  · simp only [Reference.direction, Fixture.empty, NewScene, Fixture.env, Fixture.vec,
      Fixture.corner, Fixture.horizon, Fixture.vertical, Fixture.taxicabUnit, Fixture.magnitude,
      Vector.Add, Vector.Sub, Vector.MulS, F64.add_fin, F64.mul_fin, F64.sub_fin]
    norm_num [F64.add_fin, F64.mul_fin, F64.sub_fin, F64.div_fin, Vector.Add, Vector.Sub,
      Vector.MulS]
  · have hsum : Fixture.magnitude a.val + Fixture.magnitude b.val + Fixture.magnitude (-1)
        = a.val + b.val + 1 := by
      simp only [Fixture.magnitude, if_pos ha, if_pos hb]
      norm_num
    have hne : a.val + b.val + 1 ≠ 0 := by linarith
    simp only [Fixture.env, Fixture.taxicabUnit, hsum, if_neg hne]

/-- C18 at the scene `Fixture.empty`, pixel `(0, 0)` of an image of width and height 1,
one sample and a budget of one bounce: the ray of the sample has the direction
`(0, 0, -1)`. -/
theorem Color_empty_scene_range_witness :
    Fixture.empty.objects = [] ∧ (1 : Int) ≤ 1 ∧
    Reference.direction Fixture.empty 0 0 (F64.fin 1) (F64.fin 1) (Fixture.vec 0)
      (F64.fin (Fixture.zeros.next 2).val) (F64.fin (Fixture.zeros.next 3).val)
      = ⟨F64.fin 0, F64.fin 0, F64.fin (-1)⟩ ∧
    ∃ (r g : Nat) (after : Rand),
      Fixture.empty.Color Fixture.env 1 0 0 1 1 (F64.fin 1) (F64.fin 1) Fixture.zeros =
        some ((r, g, 255), after) ∧
      127 ≤ r ∧ r ≤ 255 ∧ 179 ≤ g ∧ g ≤ 255 :=
  ⟨rfl, le_refl 1,
    (by
      simp only [Reference.direction, Fixture.empty, NewScene, Fixture.vec, Fixture.zeros,
        Fixture.corner, Fixture.horizon, Fixture.vertical, Vector.Add, Vector.Sub, Vector.MulS]
      norm_num [F64.add_fin, F64.mul_fin, F64.sub_fin, F64.div_fin]),
    Color_empty_scene_range Fixture.env 1 Fixture.empty 0 0 1 1 (F64.fin 1) (F64.fin 1)
      Fixture.zeros 0 rfl (le_refl 1) (le_refl 1)
      (by simp [Fixture.zeros]) (by decide)
      (by
        intro p q a b
        obtain ⟨hdir, hy⟩ := Color.fixture_directions p q a b
        have ha := a.property
        have hb := b.property
        have hpos : (0 : ℚ) < a.val + b.val + 1 := by linarith [ha.1, hb.1]
        refine ⟨b.val / (a.val + b.val + 1), ?_, ?_, ?_⟩
        · rw [hdir]; exact hy
        · have : (0 : ℚ) ≤ b.val / (a.val + b.val + 1) := div_nonneg hb.1 (le_of_lt hpos)
          linarith
        · rw [div_le_one hpos]
          linarith [ha.1])⟩

end Scene

end Raytrace
